import Mathlib

/-!
# Verification of the battery-historian core (`historian.py`)

A shallow embedding, in Lean 4, of the interval-reconstruction and
power-attribution core of `historian.py`, together with theorems settling
the specification claims about it.

Modelling conventions:
* Python floats are modelled as exact rationals (`ℚ`); the claims under
  study are about the exact arithmetic the algorithms perform.
* Python `int(x)` truncates toward zero; it is modelled by `pyInt`.
* Python dictionaries that are only read/written by key are modelled as
  functions into `Option`; dictionaries that are also iterated
  (`emit_dict`, `_in_progress_dict`, ...) are modelled as association
  lists, with Python's update-in-place / append-new-key ordering.
* A Python run that raises an uncaught exception is modelled by `none`
  (or by an explicit error value for `parse_time`).
-/

/-- Python `int()` on a float: truncation toward zero. -/
def pyInt (q : ℚ) : Int := if 0 ≤ q then ⌊q⌋ else ⌈q⌉

/-- Loop body of `apply_fn_over_range` (historian.py, `while cursor < end_time`).
The extra `fuel` argument is only a termination bound: each iteration either
moves `cursor` to the integer `int(cursor) + 1` or to `end_time` (where the
loop stops), so `rangeFuel` below always exceeds the number of iterations. -/
def applyAux {α : Type} (fn : Int → ℚ → α) (end_time : ℚ) : Nat → ℚ → List α
  | 0, _ => []
  | Nat.succ fuel, cursor =>
    if cursor < end_time then
      let cursor_int := pyInt cursor
      let next0 : ℚ := ((cursor_int + 1 : Int) : ℚ)
      let next_cursor := if end_time < next0 then end_time else next0
      fn cursor_int (next_cursor - cursor) :: applyAux fn end_time fuel next_cursor
    else []

/-- Iteration bound for `applyAux`: one iteration per integer bucket between
`start_time` and `end_time`, plus slack for the two boundary steps. -/
def rangeFuel (start_time end_time : ℚ) : Nat :=
  (⌈end_time⌉ - pyInt start_time).toNat + 2

/-- `apply_fn_over_range(fn, start_time, end_time, arglist)` (historian.py):
apply `fn` per one-second quantum over a time range, collecting the results.
Each call receives the bucket `int(cursor)` and the overlap duration
`next_cursor - cursor` of the range with that bucket. -/
def apply_fn_over_range {α : Type} (fn : Int → ℚ → α) (start_time end_time : ℚ) : List α :=
  applyAux fn end_time (rangeFuel start_time end_time) start_time

/-- The sequence of `(bucket, overlap)` calls `apply_fn_over_range` makes. -/
def rangeCalls (start_time end_time : ℚ) : List (Int × ℚ) :=
  apply_fn_over_range (fun b d => (b, d)) start_time end_time

theorem pyInt_intCast (n : Int) : pyInt (n : ℚ) = n := by
  unfold pyInt
  split <;> simp

theorem pyInt_of_nonneg {q : ℚ} (h : 0 ≤ q) : pyInt q = ⌊q⌋ := if_pos h

theorem lt_pyInt_add_one (q : ℚ) : q < ((pyInt q + 1 : Int) : ℚ) := by
  unfold pyInt
  split
  · push_cast
    exact Int.lt_floor_add_one q
  · push_cast
    exact lt_of_le_of_lt (Int.le_ceil q) (by linarith)

theorem applyAux_stop {α : Type} (fn : Int → ℚ → α) (e : ℚ) (fuel : Nat) (c : ℚ)
    (h : ¬ c < e) : applyAux fn e fuel c = [] := by
  cases fuel with
  | zero => rfl
  | succ n => simp [applyAux, h]

theorem applyAux_eq_map_pairs {α : Type} (fn : Int → ℚ → α) (e : ℚ) (fuel : Nat) :
    ∀ c : ℚ, applyAux fn e fuel c =
      (applyAux (fun b d => (b, d)) e fuel c).map (fun bd => fn bd.1 bd.2) := by
  induction fuel with
  | zero => intro c; rfl
  | succ n ih =>
    intro c
    by_cases h : c < e
    · simp only [applyAux, if_pos h, List.map_cons, ih]
    · simp [applyAux, h]

theorem apply_fn_over_range_eq_map {α : Type} (fn : Int → ℚ → α) (s e : ℚ) :
    apply_fn_over_range fn s e = (rangeCalls s e).map (fun bd => fn bd.1 bd.2) :=
  applyAux_eq_map_pairs fn e (rangeFuel s e) s

/-- Each overlap duration passed to the callback is strictly positive. -/
theorem rangeCalls_pos (s e : ℚ) : ∀ bd ∈ rangeCalls s e, 0 < bd.2 := by
  unfold rangeCalls apply_fn_over_range
  generalize rangeFuel s e = fuel
  induction fuel generalizing s with
  | zero => intro bd h; simp [applyAux] at h
  | succ n ih =>
    intro bd h
    by_cases hc : s < e
    · simp only [applyAux, if_pos hc, List.mem_cons] at h
      rcases h with h | h
      · subst h
        by_cases hsplit : e < ((pyInt s + 1 : Int) : ℚ)
        · rw [if_pos hsplit]
          exact sub_pos.mpr hc
        · rw [if_neg hsplit]
          exact sub_pos.mpr (lt_pyInt_add_one s)
      · exact ih _ bd h
    · rw [applyAux_stop _ _ _ _ hc] at h
      exact absurd h (List.not_mem_nil bd)

theorem applyAux_dur_sum (e : ℚ) : ∀ (fuel : Nat) (c : ℚ), c < e →
    (⌈e⌉ - pyInt c).toNat + 1 ≤ fuel →
    (applyAux (fun _ d => d) e fuel c).sum = e - c := by
  intro fuel
  induction fuel with
  | zero => intro c _ hf; omega
  | succ n ih =>
    intro c hc hf
    simp only [applyAux, if_pos hc]
    by_cases hsplit : e < ((pyInt c + 1 : Int) : ℚ)
    · rw [if_pos hsplit, applyAux_stop _ _ _ _ (lt_irrefl e)]
      simp
    · rw [if_neg hsplit]
      push_neg at hsplit
      have hceil : pyInt c + 1 ≤ ⌈e⌉ := by
        have h1 : ((pyInt c + 1 : Int) : ℚ) ≤ ((⌈e⌉ : Int) : ℚ) :=
          le_trans hsplit (Int.le_ceil e)
        exact_mod_cast h1
      by_cases h2 : ((pyInt c + 1 : Int) : ℚ) < e
      · have hrec := ih ((pyInt c + 1 : Int) : ℚ) h2 (by rw [pyInt_intCast]; omega)
        rw [List.sum_cons, hrec]
        ring
      · have he : ((pyInt c + 1 : Int) : ℚ) = e := le_antisymm hsplit (not_lt.mp h2)
        rw [he, applyAux_stop _ _ _ _ (lt_irrefl e)]
        simp

/-- The `(bucket, overlap)` entry the specification predicts for bucket `⌊c⌋ + i`
of the range `[c, e)`. -/
def bucketEntry (c e : ℚ) (base : Int) (i : ℕ) : Int × ℚ :=
  (base + (i : Int), min ((base : ℚ) + (i : ℚ) + 1) e - max ((base : ℚ) + (i : ℚ)) c)

/-- Structure of the quantizer's calls for a nonnegative start: the buckets are
the consecutive integers `⌊c⌋, ⌊c⌋+1, ...` up to `⌈e⌉ - 1`, and bucket
`⌊c⌋ + i` receives overlap `min (⌊c⌋+i+1) e - max (⌊c⌋+i) c`. -/
theorem applyAux_pairs_eq (e : ℚ) : ∀ (fuel : Nat) (c : ℚ), 0 ≤ c → c < e →
    (⌈e⌉ - ⌊c⌋).toNat ≤ fuel →
    applyAux (fun b d => (b, d)) e fuel c =
      (List.range (⌈e⌉ - ⌊c⌋).toNat).map (bucketEntry c e ⌊c⌋) := by
  intro fuel
  induction fuel with
  | zero =>
    intro c hc0 hce hf
    have hfl : ⌊c⌋ < ⌈e⌉ := by
      have h1 : ((⌊c⌋ : Int) : ℚ) < ((⌈e⌉ : Int) : ℚ) :=
        lt_of_le_of_lt (Int.floor_le c) (lt_of_lt_of_le hce (Int.le_ceil e))
      exact_mod_cast h1
    omega
  | succ n ih =>
    intro c hc0 hce hf
    have hfl : ⌊c⌋ < ⌈e⌉ := by
      have h1 : ((⌊c⌋ : Int) : ℚ) < ((⌈e⌉ : Int) : ℚ) :=
        lt_of_le_of_lt (Int.floor_le c) (lt_of_lt_of_le hce (Int.le_ceil e))
      exact_mod_cast h1
    have hflle : (⌊c⌋ : ℚ) ≤ c := Int.floor_le c
    have hfllt : c < (⌊c⌋ : ℚ) + 1 := Int.lt_floor_add_one c
    simp only [applyAux, if_pos hce, pyInt_of_nonneg hc0]
    by_cases hsplit : e < ((⌊c⌋ + 1 : Int) : ℚ)
    · rw [if_pos hsplit, applyAux_stop _ _ _ _ (lt_irrefl e)]
      have hceq : ⌈e⌉ = ⌊c⌋ + 1 := by
        rw [Int.ceil_eq_iff]
        constructor
        · push_cast
          linarith
        · push_cast at hsplit ⊢
          linarith
      have hn : (⌈e⌉ - ⌊c⌋).toNat = 1 := by omega
      rw [hn]
      have hr1 : List.range 1 = [0] := rfl
      rw [hr1, List.map_cons, List.map_nil]
      unfold bucketEntry
      have hmin : min ((⌊c⌋ : ℚ) + ((0 : ℕ) : ℚ) + 1) e = e := by
        rw [min_eq_right]
        push_cast at hsplit ⊢
        linarith
      have hmax : max ((⌊c⌋ : ℚ) + ((0 : ℕ) : ℚ)) c = c := by
        rw [max_eq_right]
        push_cast
        linarith
      rw [hmin, hmax]
      simp
    · rw [if_neg hsplit]
      push_neg at hsplit
      have hceil : ⌊c⌋ + 1 ≤ ⌈e⌉ := by
        have h1 : ((⌊c⌋ + 1 : Int) : ℚ) ≤ ((⌈e⌉ : Int) : ℚ) := le_trans hsplit (Int.le_ceil e)
        exact_mod_cast h1
      by_cases h2 : ((⌊c⌋ + 1 : Int) : ℚ) < e
      · have hfloorc : (0 : ℚ) ≤ ((⌊c⌋ + 1 : Int) : ℚ) := by
          have h3 : (0 : Int) ≤ ⌊c⌋ + 1 := by
            have := Int.floor_nonneg.mpr hc0
            omega
          exact_mod_cast h3
        have hflc : ⌊((⌊c⌋ + 1 : Int) : ℚ)⌋ = ⌊c⌋ + 1 := Int.floor_intCast _
        have hrec := ih ((⌊c⌋ + 1 : Int) : ℚ) hfloorc h2 (by rw [hflc]; omega)
        rw [hrec, hflc]
        have hn : (⌈e⌉ - ⌊c⌋).toNat = (⌈e⌉ - (⌊c⌋ + 1)).toNat + 1 := by omega
        rw [hn, List.range_succ_eq_map, List.map_cons, List.map_map]
        congr 1
        · unfold bucketEntry
          have hmin : min ((⌊c⌋ : ℚ) + ((0 : ℕ) : ℚ) + 1) e = (⌊c⌋ : ℚ) + ((0 : ℕ) : ℚ) + 1 := by
            rw [min_eq_left]
            push_cast at hsplit ⊢
            linarith
          have hmax : max ((⌊c⌋ : ℚ) + ((0 : ℕ) : ℚ)) c = c := by
            rw [max_eq_right]
            push_cast
            linarith
          rw [hmin, hmax]
          push_cast
          simp
        · apply List.map_congr_left
          intro i _
          unfold bucketEntry
          show ((⌊c⌋ + 1) + (i : Int), _) = (⌊c⌋ + ((Nat.succ i : ℕ) : Int), _)
          have hle1 : ((⌊c⌋ + 1 : Int) : ℚ) ≤ ((⌊c⌋ + 1 : Int) : ℚ) + (i : ℚ) := by
            have h4 : (0 : ℚ) ≤ (i : ℚ) := Nat.cast_nonneg i
            linarith
          have hle2 : c ≤ (⌊c⌋ : ℚ) + ((Nat.succ i : ℕ) : ℚ) := by
            push_cast
            have h4 : (0 : ℚ) ≤ (i : ℚ) := Nat.cast_nonneg i
            linarith
          rw [Prod.mk.injEq]
          constructor
          · push_cast
            ring
          · rw [max_eq_left hle1, max_eq_left hle2]
            push_cast
            ring_nf
      · have he : ((⌊c⌋ + 1 : Int) : ℚ) = e := le_antisymm hsplit (not_lt.mp h2)
        rw [he, applyAux_stop _ _ _ _ (lt_irrefl e)]
        have hceq : ⌈e⌉ = ⌊c⌋ + 1 := by
          rw [← he, Int.ceil_intCast]
        have hn : (⌈e⌉ - ⌊c⌋).toNat = 1 := by omega
        rw [hn]
        have hr1 : List.range 1 = [0] := rfl
        rw [hr1, List.map_cons, List.map_nil]
        unfold bucketEntry
        have hmin : min ((⌊c⌋ : ℚ) + ((0 : ℕ) : ℚ) + 1) e = e := by
          have h5 : (⌊c⌋ : ℚ) + ((0 : ℕ) : ℚ) + 1 = e := by
            rw [← he]
            push_cast
            ring
          rw [h5]
          exact min_self e
        have hmax : max ((⌊c⌋ : ℚ) + ((0 : ℕ) : ℚ)) c = c := by
          rw [max_eq_right]
          push_cast
          linarith
        rw [hmin, hmax]
        simp

/-- Top-level form of `applyAux_pairs_eq`: the call sequence of
`apply_fn_over_range` on `[s, e)` with `0 ≤ s < e`. -/
theorem rangeCalls_eq {s e : ℚ} (hs : 0 ≤ s) (hse : s < e) :
    rangeCalls s e = (List.range (⌈e⌉ - ⌊s⌋).toNat).map (bucketEntry s e ⌊s⌋) := by
  unfold rangeCalls apply_fn_over_range rangeFuel
  rw [pyInt_of_nonneg hs]
  exact applyAux_pairs_eq e _ s hs hse (by omega)

/-- Telescoping: for any `s < e` the overlap durations sum to exactly `e - s`. -/
theorem overlap_sum {s e : ℚ} (hse : s < e) :
    (apply_fn_over_range (fun _ d => d) s e).sum = e - s := by
  unfold apply_fn_over_range rangeFuel
  exact applyAux_dur_sum e _ s hse (by omega)

unseal Rat.add Rat.sub Rat.mul Rat.inv in
/-- C2, counterexample. The claim asserts that for *every* pair of floats
`s < e` the first bucket's overlap equals `min (⌊s⌋ + 1) e - s`.  Python's
`int()` truncates toward zero, so for the negative non-integer start
`s = -3/2`, `e = 1/2` the loop starts at bucket `int(-3/2) = -1` with overlap
`3/2`, while the claimed formula (via `⌊-3/2⌋ = -2`) predicts overlap `1/2`. -/
theorem claim_C2_cex :
    (⌊(-(3 : ℚ)/2)⌋ = -2) ∧
    apply_fn_over_range (fun b d => (b, d)) (-(3 : ℚ)/2) (1/2) = [(-1, 3/2), (0, 1/2)] ∧
    min ((-2 : ℚ) + 1) ((1 : ℚ)/2) - (-(3 : ℚ)/2) = 1/2 ∧
    ((3 : ℚ)/2) ≠ 1/2 := by decide

/-- C2 (amended): the overlap durations `apply_fn_over_range` passes to its
callback telescope to exactly `e - s` for every `s < e`; and for `0 ≤ s < e`
(the script's `int()` truncates toward zero, so the floor-based bucket
description of the claim only holds for nonnegative starts) the calls are one
per consecutive integer-second bucket `⌊s⌋ + i`, `i = 0, ..., ⌈e⌉ - ⌊s⌋ - 1`,
left to right, where bucket `b` receives overlap `min (b+1) e - max b s`:
the first bucket gets `min (⌊s⌋+1) e - s`, interior buckets get `1`, and the
last bucket is truncated at `e`. -/
theorem claim_C2 :
    (∀ s e : ℚ, s < e → (apply_fn_over_range (fun _ d => d) s e).sum = e - s) ∧
    (∀ s e : ℚ, 0 ≤ s → s < e →
      apply_fn_over_range (fun b d => (b, d)) s e =
        (List.range (⌈e⌉ - ⌊s⌋).toNat).map (bucketEntry s e ⌊s⌋)) :=
  ⟨fun _ _ hse => overlap_sum hse, fun _ _ hs hse => rangeCalls_eq hs hse⟩

unseal Rat.add Rat.sub Rat.mul Rat.inv in
/-- Witness for C2 at `s = 1/2`, `e = 5/2`. -/
theorem claim_C2_witness :
    (apply_fn_over_range (fun _ d => d) ((1 : ℚ)/2) (5/2)).sum = (5 : ℚ)/2 - 1/2 ∧
    apply_fn_over_range (fun b d => (b, d)) ((1 : ℚ)/2) (5/2) =
      (List.range (⌈(5 : ℚ)/2⌉ - ⌊(1 : ℚ)/2⌋).toNat).map (bucketEntry ((1 : ℚ)/2) ((5 : ℚ)/2) ⌊(1 : ℚ)/2⌋) :=
  ⟨claim_C2.1 ((1 : ℚ)/2) ((5 : ℚ)/2) (by decide),
   claim_C2.2 ((1 : ℚ)/2) ((5 : ℚ)/2) (by decide) (by decide)⟩

/-! ## Power accounting: `PowerEmitter`, `BlameSynopsis`, occupancy tracking -/

/-- `BLAME_CATEGORY` (historian.py): the category to assign power blame to. -/
def BLAME_CATEGORY : String := "wake_lock_in"

/-- `as_to_mah(a)` (historian.py): `a * 1000 / 60 / 60`. -/
def as_to_mah (a : ℚ) : ℚ := a * 1000 / 60 / 60

/-- `BHEmitter.track_event_parallelism_fn(start_time, time_this_quanta, time_dict)`:
`time_dict[start_time] += time_this_quanta`, creating the key at the quantum's
value if absent.  The mutation is modelled by returning the updated map. -/
def track_event_parallelism_fn (time_dict : Int → Option ℚ) (start_time : Int)
    (time_this_quanta : ℚ) : Int → Option ℚ :=
  fun b => if b = start_time then some ((time_dict start_time).getD 0 + time_this_quanta)
           else time_dict b

/-- `BHEmitter.track_event_parallelism(start_time, end_time, time_dict)`:
`apply_fn_over_range` with the state-mutating callback
`track_event_parallelism_fn` is a left fold of the callback over the
`(bucket, quanta)` call sequence (the call sequence does not depend on the
dictionary being mutated). -/
def track_event_parallelism (start_time end_time : ℚ) (time_dict : Int → Option ℚ) :
    Int → Option ℚ :=
  (rangeCalls start_time end_time).foldl
    (fun td bd => track_event_parallelism_fn td bd.1 bd.2) time_dict

/-- `PowerEmitter.get_range_power_fn(start_time, time_this_quanta, time_dict)`.
`none` models an uncaught Python exception: `KeyError` when the bucket is
absent from `time_dict`, `ZeroDivisionError` when its value is zero, and the
`assert multiplier <= 1.0` failure. -/
def get_range_power_fn (power_dict time_dict : Int → Option ℚ) (start_time : Int)
    (time_this_quanta : ℚ) : Option ℚ :=
  match power_dict start_time with
  | some base =>
    match time_dict start_time with
    | none => none
    | some total_time_held =>
      if total_time_held = 0 then none
      else
        let multiplier := time_this_quanta / total_time_held
        if multiplier ≤ 1 then some (base * multiplier) else none
  | none => some 0

/-- Summing the per-quantum results of `get_range_power`, propagating an
exception raised by any quantum. -/
def sum_option (l : List (Option ℚ)) : Option ℚ :=
  l.foldl (fun acc r => match acc, r with
    | some a, some x => some (a + x)
    | _, _ => none) (some 0)

/-- `PowerEmitter.get_range_power(start, end, time_dict)`. -/
def get_range_power (power_dict time_dict : Int → Option ℚ) (start_time end_time : ℚ) :
    Option ℚ :=
  sum_option (apply_fn_over_range (get_range_power_fn power_dict time_dict)
    start_time end_time)

/-- `BlameSynopsis` (historian.py).  `timestr` stores the first-seen event time
(the script stores it already formatted by `time_float_to_human`). -/
structure BlameSynopsis where
  name : String
  mah : ℚ
  duration_list : List ℚ
  timestr : Option ℚ

/-- `BlameSynopsis.__init__`. -/
def BlameSynopsis.init : BlameSynopsis :=
  { name := "", mah := 0, duration_list := [], timestr := none }

/-- `BlameSynopsis.add(name, duration, mah, t)`. -/
def BlameSynopsis.add (sd : BlameSynopsis) (name : String) (duration mah t : ℚ) :
    BlameSynopsis :=
  { name := name, mah := sd.mah + mah,
    duration_list := sd.duration_list ++ [duration],
    timestr := match sd.timestr with | none => some t | some x => some x }

/-- Python-dict lookup on an association list (first matching key). -/
def dictGet {α β : Type} [DecidableEq α] : List (α × β) → α → Option β
  | [], _ => none
  | (k, v) :: rest, k0 => if k0 = k then some v else dictGet rest k0

/-- Python-dict store on an association list: an existing key keeps its
position, a new key is appended at the end. -/
def dictSet {α β : Type} [DecidableEq α] : List (α × β) → α → β → List (α × β)
  | [], k0, v0 => [(k0, v0)]
  | (k, v) :: rest, k0, v0 =>
    if k0 = k then (k0, v0) :: rest else (k, v) :: dictSet rest k0 v0

/-- `PowerEmitter.bill(time_dict)`: iterate over the blame records
(`self._cat_list`), attribute proportional power to each, and accumulate the
per-name `BlameSynopsis`.  `extra` is the global `getopt_bill_extra_secs`. -/
def bill (extra : ℚ) (power_dict time_dict : Int → Option ℚ) :
    List (String × ℚ × ℚ) → List (String × BlameSynopsis) →
      Option (List (String × BlameSynopsis))
  | [], synopsis_dict => some synopsis_dict
  | (event_name, start_time, end_time) :: rest, synopsis_dict =>
    let sd := (dictGet synopsis_dict event_name).getD BlameSynopsis.init
    match get_range_power power_dict time_dict start_time (end_time + extra) with
    | none => none
    | some amps =>
      bill extra power_dict time_dict rest
        (dictSet synopsis_dict event_name
          (sd.add event_name (end_time - start_time) (as_to_mah amps) start_time))

/-- The mAh `bill` attributes to the name `nm` (starting from an empty
synopsis dictionary); `none` if billing raised or the name was never billed. -/
def billed_mah (extra : ℚ) (power_dict time_dict : Int → Option ℚ)
    (records : List (String × ℚ × ℚ)) (nm : String) : Option ℚ :=
  (bill extra power_dict time_dict records []).bind
    (fun syn => (dictGet syn nm).map BlameSynopsis.mah)

/-- The occupancy map `main` hands to `bill`: `emit_event` folds every blame
record, extended by the grace period, into `time_dict` via
`track_event_parallelism`, starting from the empty dict. -/
def build_time_dict (extra : ℚ) (records : List (String × ℚ × ℚ)) : Int → Option ℚ :=
  records.foldl (fun td r => track_event_parallelism r.2.1 (r.2.2 + extra) td)
    (fun _ => none)

/-! ## Lemmas about the occupancy fold and proportional billing -/

theorem trackFold_getD_mono (L : List (Int × ℚ)) (hL : ∀ bd ∈ L, 0 ≤ bd.2) :
    ∀ (td : Int → Option ℚ) (b : Int),
      (td b).getD 0 ≤
        ((L.foldl (fun td bd => track_event_parallelism_fn td bd.1 bd.2) td) b).getD 0 := by
  induction L with
  | nil => intro td b; simp
  | cons hd tl ih =>
    intro td b
    simp only [List.foldl_cons]
    refine le_trans ?_ (ih (fun bd h => hL bd (List.mem_cons_of_mem _ h)) _ b)
    unfold track_event_parallelism_fn
    by_cases hb : b = hd.1
    · subst hb
      simp only [eq_self_iff_true, if_true, Option.getD_some]
      have := hL hd (List.mem_cons_self _ _)
      linarith
    · simp [hb]

theorem trackFold_ge (L : List (Int × ℚ)) (hL : ∀ bd ∈ L, 0 ≤ bd.2) :
    ∀ (td : Int → Option ℚ) (b : Int) (v : ℚ), td b = some v →
      ∃ v2, (L.foldl (fun td bd => track_event_parallelism_fn td bd.1 bd.2) td) b = some v2 ∧
        v ≤ v2 := by
  induction L with
  | nil => intro td b v h; exact ⟨v, h, le_refl v⟩
  | cons hd tl ih =>
    intro td b v h
    simp only [List.foldl_cons]
    have htl : ∀ bd ∈ tl, 0 ≤ bd.2 := fun bd hm => hL bd (List.mem_cons_of_mem _ hm)
    by_cases hb : b = hd.1
    · subst hb
      have hstep : track_event_parallelism_fn td hd.1 hd.2 hd.1 = some (v + hd.2) := by
        unfold track_event_parallelism_fn
        simp [h]
      obtain ⟨v2, hv2, hle⟩ := ih htl _ hd.1 (v + hd.2) hstep
      have := hL hd (List.mem_cons_self _ _)
      exact ⟨v2, hv2, by linarith⟩
    · have hstep : track_event_parallelism_fn td hd.1 hd.2 b = some v := by
        unfold track_event_parallelism_fn
        simp [hb, h]
      exact ih htl _ b v hstep

theorem trackFold_nonneg (L : List (Int × ℚ)) (hL : ∀ bd ∈ L, 0 ≤ bd.2)
    (td : Int → Option ℚ) (hnn : ∀ b, 0 ≤ (td b).getD 0) :
    ∀ b, 0 ≤ ((L.foldl (fun td bd => track_event_parallelism_fn td bd.1 bd.2) td) b).getD 0 :=
  fun b => le_trans (hnn b) (trackFold_getD_mono L hL td b)

theorem trackFold_hit (L : List (Int × ℚ)) (hL : ∀ bd ∈ L, 0 < bd.2) :
    ∀ (td : Int → Option ℚ), (∀ b, 0 ≤ (td b).getD 0) →
      ∀ bd ∈ L,
        ∃ v, (L.foldl (fun td bd => track_event_parallelism_fn td bd.1 bd.2) td) bd.1 = some v ∧
          0 < v ∧ bd.2 ≤ v := by
  induction L with
  | nil => intro td _ bd h; exact absurd h (List.not_mem_nil bd)
  | cons hd tl ih =>
    intro td hnn bd hmem
    simp only [List.foldl_cons]
    have htl : ∀ x ∈ tl, 0 ≤ x.2 := fun x hm => le_of_lt (hL x (List.mem_cons_of_mem _ hm))
    rcases List.mem_cons.mp hmem with rfl | hmemtl
    · have hstep : track_event_parallelism_fn td bd.1 bd.2 bd.1 =
          some ((td bd.1).getD 0 + bd.2) := by
        unfold track_event_parallelism_fn
        simp
      obtain ⟨v2, hv2, hle⟩ := trackFold_ge tl htl _ bd.1 _ hstep
      have h1 := hnn bd.1
      have h2 := hL bd (List.mem_cons_self _ _)
      exact ⟨v2, hv2, by linarith, by linarith⟩
    · have hnn1 : ∀ b, 0 ≤ (track_event_parallelism_fn td hd.1 hd.2 b).getD 0 := by
        intro b
        unfold track_event_parallelism_fn
        by_cases hb : b = hd.1
        · subst hb
          simp only [eq_self_iff_true, if_true, Option.getD_some]
          have := hL hd (List.mem_cons_self _ _)
          have := hnn hd.1
          linarith
        · simpa [hb] using hnn b
      exact ih (fun x hm => hL x (List.mem_cons_of_mem _ hm)) _ hnn1 bd hmemtl

theorem trackFold_untouched (L : List (Int × ℚ)) :
    ∀ (td : Int → Option ℚ) (b : Int), b ∉ L.map Prod.fst →
      (L.foldl (fun td bd => track_event_parallelism_fn td bd.1 bd.2) td) b = td b := by
  induction L with
  | nil => intro td b _; rfl
  | cons hd tl ih =>
    intro td b hb
    simp only [List.map_cons, List.mem_cons] at hb
    push_neg at hb
    simp only [List.foldl_cons]
    rw [ih _ b hb.2]
    unfold track_event_parallelism_fn
    simp [hb.1]

theorem trackFold_nodup_exact (L : List (Int × ℚ)) :
    ((L.map Prod.fst).Nodup) →
    ∀ (td : Int → Option ℚ) (bd : Int × ℚ), bd ∈ L → td bd.1 = none →
      (L.foldl (fun td bd => track_event_parallelism_fn td bd.1 bd.2) td) bd.1 = some bd.2 := by
  induction L with
  | nil => intro _ td bd h; exact absurd h (List.not_mem_nil bd)
  | cons hd tl ih =>
    intro hnd td bd hmem hnone
    simp only [List.map_cons, List.nodup_cons] at hnd
    simp only [List.foldl_cons]
    rcases List.mem_cons.mp hmem with rfl | hmemtl
    · rw [trackFold_untouched tl _ bd.1 hnd.1]
      unfold track_event_parallelism_fn
      simp [hnone]
    · have hne : bd.1 ≠ hd.1 := by
        intro hcontr
        exact hnd.1 (hcontr ▸ List.mem_map_of_mem Prod.fst hmemtl)
      have hstep : track_event_parallelism_fn td hd.1 hd.2 bd.1 = none := by
        unfold track_event_parallelism_fn
        simp [hne, hnone]
      exact ih hnd.2 _ bd hmemtl hstep

theorem get_range_power_eq (pd td : Int → Option ℚ) (s e : ℚ) :
    get_range_power pd td s e =
      sum_option ((rangeCalls s e).map (fun bd => get_range_power_fn pd td bd.1 bd.2)) := by
  unfold get_range_power
  rw [apply_fn_over_range_eq_map]

theorem sum_option_isSome (l : List (Option ℚ)) (h : ∀ x ∈ l, x.isSome) :
    (sum_option l).isSome := by
  unfold sum_option
  suffices haux : ∀ a : ℚ, (l.foldl (fun acc r => match acc, r with
      | some a, some x => some (a + x)
      | _, _ => none) (some a)).isSome from haux 0
  induction l with
  | nil => intro a; rfl
  | cons hd tl ih =>
    intro a
    obtain ⟨x, hx⟩ := Option.isSome_iff_exists.mp (h hd (List.mem_cons_self _ _))
    simp only [List.foldl_cons, hx]
    exact ih (fun y hy => h y (List.mem_cons_of_mem _ hy)) (a + x)

theorem sum_option_map_eq {γ : Type} (L : List γ) (f : γ → Option ℚ) (g : γ → ℚ)
    (h : ∀ x ∈ L, f x = some (g x)) :
    sum_option (L.map f) = some ((L.map g).sum) := by
  unfold sum_option
  suffices haux : ∀ a : ℚ, ((L.map f).foldl (fun acc r => match acc, r with
      | some a, some x => some (a + x)
      | _, _ => none) (some a)) = some (a + (L.map g).sum) by
    rw [haux 0, zero_add]
  induction L with
  | nil => intro a; simp
  | cons hd tl ih =>
    intro a
    simp only [List.map_cons, List.foldl_cons, h hd (List.mem_cons_self _ _), List.sum_cons]
    rw [ih (fun y hy => h y (List.mem_cons_of_mem _ hy)) (a + g hd)]
    ring_nf

theorem get_range_power_isSome (pd td : Int → Option ℚ) (s e : ℚ)
    (h : ∀ bd ∈ rangeCalls s e, ∃ v, td bd.1 = some v ∧ 0 < v ∧ bd.2 ≤ v) :
    (get_range_power pd td s e).isSome := by
  rw [get_range_power_eq]
  apply sum_option_isSome
  intro x hx
  obtain ⟨bd, hbd, rfl⟩ := List.mem_map.mp hx
  obtain ⟨v, hv, hv0, hvle⟩ := h bd hbd
  unfold get_range_power_fn
  cases hpd : pd bd.1 with
  | none => rfl
  | some base =>
    have h1 : v ≠ 0 := ne_of_gt hv0
    have h2 : bd.2 / v ≤ 1 := (div_le_one hv0).mpr hvle
    simp [hv, h1, h2]

theorem bill_isSome (extra : ℚ) (pd td : Int → Option ℚ) :
    ∀ (records : List (String × ℚ × ℚ)) (syn : List (String × BlameSynopsis)),
      (∀ r ∈ records, (get_range_power pd td r.2.1 (r.2.2 + extra)).isSome) →
      (bill extra pd td records syn).isSome := by
  intro records
  induction records with
  | nil => intro syn _; rfl
  | cons hd tl ih =>
    intro syn h
    obtain ⟨nm, s, e⟩ := hd
    obtain ⟨amps, hamps⟩ := Option.isSome_iff_exists.mp (h (nm, s, e) (List.mem_cons_self _ _))
    simp only [bill, hamps]
    exact ih _ (fun r hr => h r (List.mem_cons_of_mem _ hr))

/-- Every bucket of every record's billing range is present in the occupancy
map built from the records, with value at least that record's own overlap. -/
theorem build_time_dict_covers (extra : ℚ) :
    ∀ (records : List (String × ℚ × ℚ)) (td0 : Int → Option ℚ),
      (∀ b, 0 ≤ (td0 b).getD 0) →
      ∀ r ∈ records, ∀ bd ∈ rangeCalls r.2.1 (r.2.2 + extra),
        ∃ v, (records.foldl (fun td r => track_event_parallelism r.2.1 (r.2.2 + extra) td) td0)
            bd.1 = some v ∧ 0 < v ∧ bd.2 ≤ v := by
  intro records
  induction records with
  | nil => intro td0 _ r hr; exact absurd hr (List.not_mem_nil r)
  | cons hd tl ih =>
    intro td0 hnn r hr bd hbd
    simp only [List.foldl_cons]
    have hpos := rangeCalls_pos hd.2.1 (hd.2.2 + extra)
    have hnn1 : ∀ b, 0 ≤ ((track_event_parallelism hd.2.1 (hd.2.2 + extra) td0) b).getD 0 :=
      trackFold_nonneg _ (fun x hx => le_of_lt (hpos x hx)) td0 hnn
    rcases List.mem_cons.mp hr with rfl | hrtl
    · obtain ⟨v, hv, hv0, hvle⟩ :=
        trackFold_hit (rangeCalls r.2.1 (r.2.2 + extra)) (rangeCalls_pos _ _) td0 hnn bd hbd
      -- the value only grows along the remaining records
      have hpres : ∀ (tl2 : List (String × ℚ × ℚ)) (td : Int → Option ℚ) (b : Int) (w : ℚ),
          td b = some w →
          ∃ w2, (tl2.foldl (fun td r => track_event_parallelism r.2.1 (r.2.2 + extra) td) td)
              b = some w2 ∧ w ≤ w2 := by
        intro tl2
        induction tl2 with
        | nil => intro td b w h; exact ⟨w, h, le_refl w⟩
        | cons hd2 tl2' ih2 =>
          intro td b w h
          simp only [List.foldl_cons]
          obtain ⟨w1, hw1, hle1⟩ :=
            trackFold_ge (rangeCalls hd2.2.1 (hd2.2.2 + extra))
              (fun x hx => le_of_lt (rangeCalls_pos _ _ x hx)) td b w h
          obtain ⟨w2, hw2, hle2⟩ := ih2 _ b w1 hw1
          exact ⟨w2, hw2, le_trans hle1 hle2⟩
      obtain ⟨w2, hw2, hle2⟩ := hpres tl _ bd.1 v hv
      exact ⟨w2, hw2, lt_of_lt_of_le hv0 hle2, le_trans hvle hle2⟩
    · exact ih _ hnn1 r hrtl bd hbd

/-- C8: with the occupancy map built by `track_event_parallelism` over exactly
the records being billed (each extended by the same grace period), every
billed one-second bucket is present in the occupancy map with a positive
value, the proportional multiplier is at most 1, and `bill` completes without
raising (`KeyError`, `ZeroDivisionError` and the `assert multiplier <= 1.0`
all modelled as `none`). -/
theorem claim_C8 (extra : ℚ) (pd : Int → Option ℚ) (records : List (String × ℚ × ℚ)) :
    (∀ r ∈ records, ∀ bd ∈ rangeCalls r.2.1 (r.2.2 + extra),
      ∃ v, (build_time_dict extra records) bd.1 = some v ∧ 0 < v ∧ bd.2 / v ≤ 1) ∧
    (bill extra pd (build_time_dict extra records) records []).isSome := by
  have hcov : ∀ r ∈ records, ∀ bd ∈ rangeCalls r.2.1 (r.2.2 + extra),
      ∃ v, (build_time_dict extra records) bd.1 = some v ∧ 0 < v ∧ bd.2 ≤ v :=
    build_time_dict_covers extra records (fun _ => none) (fun _ => le_refl 0)
  constructor
  · intro r hr bd hbd
    obtain ⟨v, hv, hv0, hvle⟩ := hcov r hr bd hbd
    exact ⟨v, hv, hv0, (div_le_one hv0).mpr hvle⟩
  · exact bill_isSome extra pd _ records []
      (fun r hr => get_range_power_isSome pd _ r.2.1 (r.2.2 + extra) (hcov r hr))

/-- Witness for C8: two overlapping blame records and a power sample. -/
theorem claim_C8_witness :
    (∀ r ∈ [("a", (0 : ℚ), (2 : ℚ)), ("b", (1 : ℚ), (3 : ℚ))],
      ∀ bd ∈ rangeCalls r.2.1 (r.2.2 + 0),
      ∃ v, (build_time_dict 0 [("a", (0 : ℚ), (2 : ℚ)), ("b", (1 : ℚ), (3 : ℚ))]) bd.1 = some v ∧
        0 < v ∧ bd.2 / v ≤ 1) ∧
    (bill 0 (fun b => if b = 1 then some 1 else none)
      (build_time_dict 0 [("a", (0 : ℚ), (2 : ℚ)), ("b", (1 : ℚ), (3 : ℚ))])
      [("a", (0 : ℚ), (2 : ℚ)), ("b", (1 : ℚ), (3 : ℚ))] []).isSome :=
  claim_C8 0 (fun b => if b = 1 then some 1 else none)
    [("a", (0 : ℚ), (2 : ℚ)), ("b", (1 : ℚ), (3 : ℚ))]

theorem rangeCalls_keys_nodup {s e : ℚ} (hs : 0 ≤ s) (hse : s < e) :
    ((rangeCalls s e).map Prod.fst).Nodup := by
  rw [rangeCalls_eq hs hse, List.map_map]
  have hcomp : (Prod.fst ∘ bucketEntry s e ⌊s⌋) = fun i : ℕ => ⌊s⌋ + (i : Int) := rfl
  rw [hcomp]
  refine List.Nodup.map ?_ (List.nodup_range _)
  intro i j hij
  have hij2 : ⌊s⌋ + (i : Int) = ⌊s⌋ + (j : Int) := hij
  omega

/-- Occupancy built from a single isolated interval records exactly that
interval's own overlap in each of its buckets. -/
theorem track_single_exact {s e : ℚ} (hs : 0 ≤ s) (hse : s < e) :
    ∀ bd ∈ rangeCalls s e,
      (track_event_parallelism s e (fun _ => none)) bd.1 = some bd.2 := by
  intro bd hbd
  exact trackFold_nodup_exact (rangeCalls s e) (rangeCalls_keys_nodup hs hse)
    (fun _ => none) bd hbd rfl

theorem as_to_mah_eq (a : ℚ) : as_to_mah a = a * 1000 / 3600 := by
  unfold as_to_mah
  rw [div_div]
  norm_num

/-- C1 (billing conservation): for a blame interval `[s, e)` whose one-second
buckets receive occupancy from no other blame interval (the occupancy map is
built by `track_event_parallelism` over this interval alone) and a zero
billing grace period, `bill` attributes to the interval's name exactly the
sum over the buckets `b` of `[s, e)` of the power sample for `b` (0 for
buckets with no sample), converted to mAh as `amps * 1000 / 3600`. -/
theorem claim_C1 (nm : String) (s e : ℚ) (pd : Int → Option ℚ)
    (hs : 0 ≤ s) (hse : s < e) :
    billed_mah 0 pd (track_event_parallelism s e (fun _ => none)) [(nm, s, e)] nm =
      some ((((List.range ((⌈e⌉ - ⌊s⌋).toNat)).map
        (fun (i : ℕ) => (pd (⌊s⌋ + (i : Int))).getD 0)).sum) * 1000 / 3600) := by
  have hval : ∀ bd ∈ rangeCalls s e,
      get_range_power_fn pd (track_event_parallelism s e (fun _ => none)) bd.1 bd.2 =
        some ((pd bd.1).getD 0) := by
    intro bd hbd
    have hex := track_single_exact hs hse bd hbd
    have hpos := rangeCalls_pos s e bd hbd
    unfold get_range_power_fn
    cases hpd : pd bd.1 with
    | none => simp
    | some base =>
      have h1 : bd.2 ≠ 0 := ne_of_gt hpos
      simp [hex, h1, div_self h1]
  have hgrp : get_range_power pd (track_event_parallelism s e (fun _ => none)) s e =
      some (((rangeCalls s e).map (fun bd => (pd bd.1).getD 0)).sum) := by
    rw [get_range_power_eq]
    exact sum_option_map_eq _ _ _ hval
  have hsum : ((rangeCalls s e).map (fun bd => (pd bd.1).getD 0)).sum =
      ((List.range ((⌈e⌉ - ⌊s⌋).toNat)).map
        (fun (i : ℕ) => (pd (⌊s⌋ + (i : Int))).getD 0)).sum := by
    rw [rangeCalls_eq hs hse, List.map_map]
    rfl
  unfold billed_mah
  simp only [bill, add_zero, hgrp, hsum]
  simp only [Option.some_bind]
  simp [dictGet, dictSet, BlameSynopsis.add, BlameSynopsis.init, as_to_mah_eq]

/-- Witness for C1: an isolated blame interval `[0, 2)` with samples at 0 and 1. -/
theorem claim_C1_witness :
    billed_mah 0 (fun b => if b = 0 then some (mkRat 3 5) else if b = 1 then some (mkRat 2 5) else none)
      (track_event_parallelism 0 2 (fun _ => none)) [("w", (0 : ℚ), (2 : ℚ))] "w" =
      some ((((List.range ((⌈(2 : ℚ)⌉ - ⌊(0 : ℚ)⌋).toNat)).map
        (fun (i : ℕ) =>
          ((fun b => if b = 0 then some (mkRat 3 5) else if b = 1 then some (mkRat 2 5) else none)
            (⌊(0 : ℚ)⌋ + (i : Int))).getD 0)).sum) * 1000 / 3600) :=
  claim_C1 "w" 0 2 _ (by norm_num) (by norm_num)

theorem applyAux_step {α : Type} (fn : Int → ℚ → α) (e : ℚ) (fuel : Nat) (c : ℚ)
    (hc : c < e) :
    applyAux fn e (Nat.succ fuel) c =
      fn (pyInt c) ((if e < ((pyInt c + 1 : Int) : ℚ) then e else ((pyInt c + 1 : Int) : ℚ)) - c) ::
        applyAux fn e fuel (if e < ((pyInt c + 1 : Int) : ℚ) then e else ((pyInt c + 1 : Int) : ℚ)) := by
  simp only [applyAux, if_pos hc]

theorem rangeCalls_unit (t : Int) :
    rangeCalls (t : ℚ) ((t : ℚ) + 1) = [(t, 1)] := by
  have hlt : (t : ℚ) < (t : ℚ) + 1 := by linarith
  have hcast : (t : ℚ) + 1 = ((t + 1 : Int) : ℚ) := by push_cast; ring
  have hfuel : rangeFuel (t : ℚ) ((t : ℚ) + 1) = 3 := by
    unfold rangeFuel
    rw [pyInt_intCast, hcast, Int.ceil_intCast]
    omega
  have hnotlt : ¬ ((t : ℚ) + 1 < ((t + 1 : Int) : ℚ)) := by
    rw [← hcast]
    exact lt_irrefl _
  have hstop : ¬ (((t + 1 : Int) : ℚ) < (t : ℚ) + 1) := by
    rw [← hcast]
    exact lt_irrefl _
  unfold rangeCalls apply_fn_over_range
  rw [hfuel]
  show applyAux _ _ (Nat.succ 2) _ = _
  rw [applyAux_step _ _ _ _ hlt, pyInt_intCast, if_neg hnotlt, applyAux_stop _ _ _ _ hstop]
  rw [← hcast]
  norm_num

/-- C3 (billing proportionality): two blame intervals, each active for the
full span of second `t` (so the occupancy map built by
`track_event_parallelism` has value `2` at `t`), with a power sample `p` for
`t`: `bill` attributes to each of the two interval names exactly half of `p`
(converted to mAh). -/
theorem claim_C3 (nmX nmY : String) (hne : nmX ≠ nmY) (t : Int) (p : ℚ)
    (pd : Int → Option ℚ) (hp : pd t = some p) :
    billed_mah 0 pd
      (track_event_parallelism (t : ℚ) ((t : ℚ) + 1)
        (track_event_parallelism (t : ℚ) ((t : ℚ) + 1) (fun _ => none)))
      [(nmX, (t : ℚ), (t : ℚ) + 1), (nmY, (t : ℚ), (t : ℚ) + 1)] nmX =
        some (as_to_mah (p / 2)) ∧
    billed_mah 0 pd
      (track_event_parallelism (t : ℚ) ((t : ℚ) + 1)
        (track_event_parallelism (t : ℚ) ((t : ℚ) + 1) (fun _ => none)))
      [(nmX, (t : ℚ), (t : ℚ) + 1), (nmY, (t : ℚ), (t : ℚ) + 1)] nmY =
        some (as_to_mah (p / 2)) := by
  have htd : (track_event_parallelism (t : ℚ) ((t : ℚ) + 1)
      (track_event_parallelism (t : ℚ) ((t : ℚ) + 1) (fun _ => none))) t = some 2 := by
    unfold track_event_parallelism
    rw [rangeCalls_unit]
    simp [track_event_parallelism_fn]
    norm_num
  have hgrp : get_range_power pd
      (track_event_parallelism (t : ℚ) ((t : ℚ) + 1)
        (track_event_parallelism (t : ℚ) ((t : ℚ) + 1) (fun _ => none)))
      (t : ℚ) ((t : ℚ) + 1) = some (p * (1 / 2)) := by
    rw [get_range_power_eq, rangeCalls_unit]
    have hfn : get_range_power_fn pd
        (track_event_parallelism (t : ℚ) ((t : ℚ) + 1)
          (track_event_parallelism (t : ℚ) ((t : ℚ) + 1) (fun _ => none))) t 1 =
        some (p * (1 / 2)) := by
      unfold get_range_power_fn
      rw [hp, htd]
      norm_num
    simp only [List.map_cons, List.map_nil, hfn]
    simp [sum_option]
  unfold billed_mah
  simp only [bill, add_zero, hgrp]
  have h1 : as_to_mah (0 + p * (1 / 2)) = as_to_mah (p / 2) := by
    unfold as_to_mah
    ring_nf
  simp only [Option.some_bind]
  constructor
  · simp [dictGet, dictSet, BlameSynopsis.add, BlameSynopsis.init, hne, Ne.symm hne]
    unfold as_to_mah
    ring_nf
  · simp [dictGet, dictSet, BlameSynopsis.add, BlameSynopsis.init, hne, Ne.symm hne]
    unfold as_to_mah
    ring_nf

/-- Witness for C3: blame intervals "x" and "y" over second 0, sample 1 A. -/
theorem claim_C3_witness :
    billed_mah 0 (fun b => if b = 0 then some 1 else none)
      (track_event_parallelism ((0 : Int) : ℚ) (((0 : Int) : ℚ) + 1)
        (track_event_parallelism ((0 : Int) : ℚ) (((0 : Int) : ℚ) + 1) (fun _ => none)))
      [("x", ((0 : Int) : ℚ), ((0 : Int) : ℚ) + 1), ("y", ((0 : Int) : ℚ), ((0 : Int) : ℚ) + 1)]
      "x" = some (as_to_mah ((1 : ℚ) / 2)) ∧
    billed_mah 0 (fun b => if b = 0 then some 1 else none)
      (track_event_parallelism ((0 : Int) : ℚ) (((0 : Int) : ℚ) + 1)
        (track_event_parallelism ((0 : Int) : ℚ) (((0 : Int) : ℚ) + 1) (fun _ => none)))
      [("x", ((0 : Int) : ℚ), ((0 : Int) : ℚ) + 1), ("y", ((0 : Int) : ℚ), ((0 : Int) : ℚ) + 1)]
      "y" = some (as_to_mah ((1 : ℚ) / 2)) :=
  claim_C3 "x" "y" (by decide) 0 1 (fun b => if b = 0 then some 1 else none) rfl

/-! ## String helpers of the event matcher (structural recursion, so the
kernel can evaluate concrete tokens) -/

/-- `listLeads pat cs`: `cs` begins with `pat`. -/
def listLeads : List Char → List Char → Bool
  | [], _ => true
  | _ :: _, [] => false
  | p :: ps, c :: cs => p == c && listLeads ps cs

/-- Python's substring test `sub in hay` (on the char list). -/
def containsSub : List Char → List Char → Bool
  | [], sub => listLeads sub []
  | c :: t, sub => listLeads sub (c :: t) || containsSub t sub

/-- Python `sub in hay` on strings. -/
def strContains (hay sub : String) : Bool := containsSub hay.data sub.data

/-- `s.split(c)` on the char list, single-character separator. -/
def splitChar (c : Char) : List Char → List (List Char)
  | [] => [[]]
  | x :: xs =>
    if x == c then [] :: splitChar c xs
    else match splitChar c xs with
      | h :: t => (x :: h) :: t
      | [] => [[x]]

/-- Python `s.split(sep)` for the single-character separators the script uses. -/
def pySplit (s : String) (c : Char) : List String :=
  (splitChar c s.data).map (fun l => String.mk l)

/-- `get_after_equal(e)`: `e.split("=")[1]`; `none` models the `IndexError`
raised when `e` contains no `=`. -/
def get_after_equal (e : String) : Option String := (pySplit e '=').get? 1

/-- Python `s.split(c, 1)` as the pair around the first separator; `none` when
the separator is absent (the script unpacks the result into two variables,
which raises `ValueError` for a one-element list). -/
def splitFirst (c : Char) : List Char → Option (List Char × List Char)
  | [] => none
  | x :: xs =>
    if x == c then some ([], xs)
    else (splitFirst c xs).map (fun p => (x :: p.1, p.2))

def pySplitOnce (s : String) (c : Char) : Option (String × String) :=
  (splitFirst c s.data).map (fun p => (String.mk p.1, String.mk p.2))

/-- `get_proc_pair(e)` (historian.py). -/
def get_proc_pair (e : String) : Option (String × String) :=
  if strContains e ":" then
    match get_after_equal e with
    | none => none
    | some pp => pySplitOnce pp ':'
  else some ("", "")

/-- `get_event_category(e)`: `e.lstrip("+-").split("=")[0]`. -/
def get_event_category (e : String) : String :=
  (pySplit (String.mk (e.data.dropWhile (fun c => c == '+' || c == '-'))) '=').headD ""

/-- The categories tracked with sub-categories (`concurrent_cat`). -/
def concurrent_cat : List String := ["wake_lock_in", "sync", "top"]

/-- `get_event_subcat(cat, e)`; the `IndexError` from `get_after_equal` is
caught and yields the empty sub-category. -/
def get_event_subcat (cat e : String) : String :=
  if cat ∈ concurrent_cat then ((pySplit e '=').get? 1).getD "" else ""

/-- `is_emit_event(e)`: `e[0] != "+"` (tokens are nonempty). -/
def is_emit_event (e : String) : Bool := !(listLeads ['+'] e.data)

/-- `is_standalone_event(e)`: no leading `+` or `-`. -/
def is_standalone_event (e : String) : Bool :=
  !(listLeads ['+'] e.data || listLeads ['-'] e.data)

/-- `is_proc_event(e)`: `e.startswith("+proc")`. -/
def is_proc_event (e : String) : Bool := listLeads ['+', 'p', 'r', 'o', 'c'] e.data

/-- `abbrev_timestr(s)`: chop milliseconds off a time string. -/
def abbrev_timestr (s : String) : String :=
  let arr := pySplit s 's'
  if arr.length < 3 then "0s" else (arr.headD "") ++ "s"

/-- `BHEmitter.get_proc_name(proc_id)`. -/
def get_proc_name (proc_dict : List (String × String)) (proc_id : String) : String :=
  (dictGet proc_dict proc_id).getD ""

/-- `BHEmitter.annotate_event_name(name)`: append the resolved process name
for `*alarm*` events; `none` models the `IndexError` from `get_after_equal`. -/
def annotate_event_name (proc_dict : List (String × String)) (name : String) : Option String :=
  if strContains name "*alarm*" then
    match get_after_equal name with
    | none => none
    | some pp => some (name ++ ":" ++ get_proc_name proc_dict ((pySplit pp ':').headD ""))
  else some name

/-- `BHEmitter.abbreviate_event_name(name)`. -/
def abbreviate_event_name (show_all_wakelocks : Bool) (name : String) : String :=
  if !show_all_wakelocks then
    if strContains name "wake_lock" then
      if strContains name "LocationManagerService" || strContains name "NlpWakeLock" then
        "LOCATION"
      else if strContains name "UlrDispatching" then "LOCATION"
      else if strContains name "GCoreFlp" || strContains name "GeofencerStateMachine" then
        "LOCATION"
      else if strContains name "NlpCollectorWakeLock" || strContains name "WAKEUP_LOCATOR" then
        "LOCATION"
      else if strContains name "GCM" || strContains name "C2DM" then "GCM"
      else name
    else name
  else name

/-- `BHEmitter.process_event_name(event_name, start_timestr, timestr)`:
returns the display name (with the `(start-end)` suffix) and the short name. -/
def process_event_name (proc_dict : List (String × String)) (show_all_wakelocks : Bool)
    (event_name start_timestr timestr : String) : Option (String × String) :=
  match annotate_event_name proc_dict event_name with
  | none => none
  | some n1 =>
    let n2 := abbreviate_event_name show_all_wakelocks n1
    some (n2 ++ "(" ++ abbrev_timestr start_timestr ++ "-" ++ abbrev_timestr timestr ++ ")", n2)

/-! ## The event matcher: `BHEmitter` state and `emit_event`/`handle_event` -/

/-- The mutable state of one `BHEmitter`/`main` run that `handle_event`
touches.  `in_progress` flattens the two-level `_in_progress_dict` to keys
`(category, sub_category)`; after `pop(subcat)` an emptied per-category inner
dict behaves exactly like an absent key, so the flat map is observationally
equivalent.  `search_proc_id` starts as the int `0` in the script, which
compares unequal to every proc-id string; this is modelled by `none`. -/
structure HState where
  in_progress : List ((String × String) × (String × ℚ × String))
  proc_dict : List (String × String)
  search_proc_id : Option String
  match_list : List String
  cat_list : List (String × ℚ × ℚ)
  emit_dict : List (String × List (String × Int × Int))
  highlight_dict : List (String × List (String × Int × Int))
  time_dict : Int → Option ℚ

/-- The state at the start of `main`. -/
def initState : HState :=
  { in_progress := [], proc_dict := [], search_proc_id := none, match_list := [],
    cat_list := [], emit_dict := [], highlight_dict := [], time_dict := fun _ => none }

/-- Python-dict key removal (`pop`) on an association list. -/
def dictRemove {α β : Type} [DecidableEq α] : List (α × β) → α → List (α × β)
  | [], _ => []
  | (k, v) :: rest, k0 => if k0 = k then rest else (k, v) :: dictRemove rest k0

/-- `add_emit_event(emit_dict, cat, name, start, end)`: store
`(name, int(start), int(end))` under `cat`, appending to the category's list
(a new category is appended at the end).  The `end < start` case only prints
a BUG line and stores the event anyway. -/
def add_emit_event (d : List (String × List (String × Int × Int)))
    (cat name : String) (start_time end_time : ℚ) :
    List (String × List (String × Int × Int)) :=
  let newevent := (name, pyInt start_time, pyInt end_time)
  match dictGet d cat with
  | some l => dictSet d cat (l ++ [newevent])
  | none => d ++ [(cat, [newevent])]

/-- `BHEmitter.store_event(cat, subcat, event_str, event_time, timestr)`. -/
def store_event (st : HState) (cat subcat event_str : String) (event_time : ℚ)
    (timestr : String) : HState :=
  { st with in_progress :=
      dictSet st.in_progress (cat, subcat) (event_str, event_time, timestr) }

/-- `BHEmitter.retrieve_event(cat, subcat)`: pop the open entry, if any. -/
def retrieve_event (st : HState) (cat subcat : String) :
    Option ((String × ℚ × String) × HState) :=
  match dictGet st.in_progress (cat, subcat) with
  | some entry =>
    some (entry, { st with in_progress := dictRemove st.in_progress (cat, subcat) })
  | none => none

/-- `swap(swap_list, 0, -1)` on `match_list`. -/
def swapFirstLast (l : List String) : List String :=
  match l with
  | [] => []
  | x :: xs =>
    match xs.getLast? with
    | none => [x]
    | some y => y :: xs.dropLast ++ [x]

/-- Python `s[1:-1]`. -/
def dropFirstLast (s : String) : String := String.mk ((s.data.drop 1).dropLast)

/-- `BHEmitter.store_proc(e, highlight_dict)`; `none` models the `ValueError`
from unpacking `proc_pair.split(":", 1)` when the payload has no `:`.
`proc_name_opt` is the global `getopt_proc_name`. -/
def store_proc (proc_name_opt : String) (e : String) (st : HState) : Option HState :=
  match get_after_equal e with
  | none => none
  | some proc_pair =>
    match pySplitOnce proc_pair ':' with
    | none => none
    | some (proc_id, proc_name) =>
      let st1 := { st with proc_dict := dictSet st.proc_dict proc_id proc_name }
      if proc_name_opt ≠ "" ∧ strContains proc_name proc_name_opt = true ∧ proc_id ≠ "" then
        let ml := if proc_name ∉ st1.match_list then st1.match_list ++ [proc_name]
                  else st1.match_list
        let st2 := { st1 with match_list := ml }
        match st2.search_proc_id with
        | none => some { st2 with search_proc_id := some proc_id }
        | some sid =>
          if sid ≠ proc_id then
            if dropFirstLast proc_name = proc_name_opt ∨ proc_name = proc_name_opt then
              some { st2 with
                highlight_dict := [],
                search_proc_id := some proc_id,
                match_list := swapFirstLast st2.match_list }
            else some st2
          else some st2
      else some st1

/-- `start_proc_id == self._search_proc_id` (initially the int `0`, which is
unequal to every proc-id string). -/
def sid_match (sid : Option String) (pid : String) : Bool :=
  match sid with
  | some x => pid == x
  | none => false

/-- The tail of `BHEmitter.emit_event` after the `wake_lock` special cases:
blame-category bookkeeping (append the `BlameRecord`, fold the grace-extended
range into the occupancy map), the sub-second `end_time += 1` bump, and the
final `add_emit_event`.  In the script the blame branch mutates the local
`end_time` (adding the grace period) before the bump, so both the bump test
and the stored interval see `end_time0 + extra` for the blame category. -/
def emit_tail (extra : ℚ) (cat event_name short_event_name : String)
    (start_time end_time0 : ℚ) (st : HState) : HState :=
  let st1 :=
    if cat = BLAME_CATEGORY then
      { st with
        cat_list := st.cat_list ++ [(short_event_name, start_time, end_time0)],
        time_dict := track_event_parallelism start_time (end_time0 + extra) st.time_dict }
    else st
  let end_time1 := if cat = BLAME_CATEGORY then end_time0 + extra else end_time0
  let end_time2 := if end_time1 - start_time < 1 then end_time1 + 1 else end_time1
  { st1 with emit_dict := add_emit_event st1.emit_dict cat event_name start_time end_time2 }

/-- `BHEmitter.emit_event` (historian.py). -/
def emit_event (extra : ℚ) (show_all_wakelocks : Bool)
    (cat event_name0 : String) (start_time : ℚ) (start_timestr : String)
    (end_event_name0 : String) (end_time0 : ℚ) (end_timestr : String)
    (st : HState) : Option HState :=
  match get_proc_pair event_name0 with
  | none => none
  | some (start_proc_id, start_proc_name) =>
    match get_proc_pair end_event_name0 with
    | none => none
    | some (end_proc_id, end_proc_name) =>
      match process_event_name st.proc_dict show_all_wakelocks event_name0
          start_timestr end_timestr with
      | none => none
      | some (event_name, short_event_name) =>
        if strContains cat "wake_lock" then
          match process_event_name st.proc_dict show_all_wakelocks end_event_name0
              start_timestr end_timestr with
          | none => none
          | some (end_event_name, _) =>
            let hd1 := if sid_match st.search_proc_id start_proc_id then
                add_emit_event st.highlight_dict ("highlight_" ++ cat) event_name
                  start_time end_time0
              else st.highlight_dict
            let hd2 := if end_proc_name ≠ "" ∧ end_proc_name ≠ start_proc_name ∧
                  sid_match st.search_proc_id end_proc_id = true then
                add_emit_event hd1 ("highlight_" ++ cat) end_event_name start_time end_time0
              else hd1
            let st1 := { st with highlight_dict := hd2 }
            if start_proc_name ≠ end_proc_name then
              let st2 := if end_proc_name ≠ "" then
                  { st1 with emit_dict :=
                      add_emit_event st1.emit_dict cat end_event_name start_time end_time0 }
                else st1
              if cat = "wake_lock" ∧ end_proc_id ≠ "" ∧ start_proc_id = "" then
                some st2
              else some (emit_tail extra cat event_name short_event_name
                start_time end_time0 st2)
            else some (emit_tail extra cat event_name short_event_name
              start_time end_time0 st1)
        else some (emit_tail extra cat event_name short_event_name start_time end_time0 st)

/-- `BHEmitter._omit_cats`. -/
def omit_cats : List String := ["temp", "volt", "brightness", "sensor", "proc"]

/-- `BHEmitter._transitional_cats`. -/
def transitional_cats : List String :=
  ["plugged", "running", "wake_lock", "gps", "sensor", "phone_in_call", "mobile_radio",
   "phone_scanning", "proc", "fg", "top", "sync", "wifi", "wifi_full_lock", "wifi_scan",
   "wifi_multicast", "wifi_running", "bluetooth", "audio", "video", "wake_lock_in"]

/-- `BHEmitter.handle_event(event_time, time_str, event_str, ...)`. -/
def handle_event (extra : ℚ) (show_all_wakelocks : Bool) (proc_name_opt : String)
    (event_time : ℚ) (time_str event_str0 : String) (st : HState) : Option HState :=
  let cat := get_event_category event_str0
  let subcat := get_event_subcat cat event_str0
  let event_str :=
    if time_str = "0" ∧ is_standalone_event event_str0 = true ∧ cat ∈ transitional_cats then
      "+" ++ event_str0
    else event_str0
  match (if is_proc_event event_str then store_proc proc_name_opt event_str st
         else some st) with
  | none => none
  | some st1 =>
    if cat ∈ omit_cats then some st1
    else if is_emit_event event_str then
      match retrieve_event st1 cat subcat with
      | some ((event_name, start_time, start_timestr), st2) =>
        emit_event extra show_all_wakelocks cat event_name start_time start_timestr
          event_str event_time time_str st2
      | none =>
        emit_event extra show_all_wakelocks cat event_str event_time time_str
          event_str event_time time_str st1
    else
      some (store_event st1 cat subcat event_str event_time time_str)

/-- Loop body of `BHEmitter.emit_remaining_events`: emit a forced-closure
interval for each still-open entry, with the entry's own name as both begin
and end name and the final observed time as the end. -/
def emitRemainingGo (extra : ℚ) (show_all_wakelocks : Bool)
    (end_time : ℚ) (end_timestr : String) :
    List ((String × String) × (String × ℚ × String)) → HState → Option HState
  | [], st => some st
  | ((cat, _subcat), (event_name, s_time, s_timestr)) :: rest, st =>
    match emit_event extra show_all_wakelocks cat event_name s_time s_timestr
        event_name end_time end_timestr st with
    | none => none
    | some st1 => emitRemainingGo extra show_all_wakelocks end_time end_timestr rest st1

/-- `BHEmitter.emit_remaining_events(end_time, end_timestr, ...)`: iterate over
all still-open `(cat, subcat)` entries (`emit_event` does not modify the
open-interval table, so iterating the entry list is the dict iteration). -/
def emit_remaining_events (extra : ℚ) (show_all_wakelocks : Bool)
    (end_time : ℚ) (end_timestr : String) (st : HState) : Option HState :=
  emitRemainingGo extra show_all_wakelocks end_time end_timestr st.in_progress st

/-! ## Effect lemmas for `handle_event` and the emitter claims -/

theorem dictGet_dictSet_self {α β : Type} [DecidableEq α] (d : List (α × β)) (k : α) (v : β) :
    dictGet (dictSet d k v) k = some v := by
  induction d with
  | nil => simp [dictGet, dictSet]
  | cons hd tl ih =>
    obtain ⟨k0, v0⟩ := hd
    by_cases hk : k = k0
    · subst hk
      simp [dictGet, dictSet]
    · simp [dictGet, dictSet, hk, ih]

/-- `handle_event` on a begin token (outside the omitted categories, not a
`+proc` declaration) just stores the token in the open-interval table. -/
theorem handle_event_begin (extra : ℚ) (saw : Bool) (pn : String) (t : ℚ)
    (ts tok : String) (st : HState)
    (hplus : listLeads ['+'] tok.data = true)
    (hnp : is_proc_event tok = false)
    (homit : get_event_category tok ∉ omit_cats) :
    handle_event extra saw pn t ts tok st =
      some (store_event st (get_event_category tok)
        (get_event_subcat (get_event_category tok) tok) tok t ts) := by
  have hstand : is_standalone_event tok = false := by
    unfold is_standalone_event
    rw [hplus]
    rfl
  have he : is_emit_event tok = false := by
    unfold is_emit_event
    rw [hplus]
    rfl
  unfold handle_event
  simp [hstand, hnp, he, homit]

/-- C10 (implicit): a second begin token for a `(category, sub_category)` key
whose open-interval entry is already occupied silently overwrites the stored
entry (`store_event` is a plain dict assignment); the earlier begin token is
dropped from the table without producing an emitted interval, and no error or
warning is produced. -/
theorem claim_C10 (extra : ℚ) (saw : Bool) (pn : String) (t : ℚ)
    (ts tok : String) (st : HState) (old : String × ℚ × String)
    (hplus : listLeads ['+'] tok.data = true)
    (hnp : is_proc_event tok = false)
    (homit : get_event_category tok ∉ omit_cats)
    (_hocc : dictGet st.in_progress
      (get_event_category tok, get_event_subcat (get_event_category tok) tok) = some old) :
    ∃ st1, handle_event extra saw pn t ts tok st = some st1 ∧
      st1.in_progress = dictSet st.in_progress
        (get_event_category tok, get_event_subcat (get_event_category tok) tok) (tok, t, ts) ∧
      dictGet st1.in_progress
        (get_event_category tok, get_event_subcat (get_event_category tok) tok) =
        some (tok, t, ts) ∧
      st1.emit_dict = st.emit_dict ∧ st1.cat_list = st.cat_list ∧
      st1.highlight_dict = st.highlight_dict ∧
      (∀ b, st1.time_dict b = st.time_dict b) := by
  refine ⟨_, handle_event_begin extra saw pn t ts tok st hplus hnp homit,
    rfl, ?_, rfl, rfl, rfl, fun b => rfl⟩
  exact dictGet_dictSet_self _ _ _

/-- Witness for C10: a `+wifi` begin token overwriting an open `wifi` entry. -/
theorem claim_C10_witness :
    ∃ st1, handle_event 0 false "" 5 "+5s000ms" "+wifi"
        { initState with in_progress := [(("wifi", ""), ("+old", 1, "+1s000ms"))] } =
        some st1 ∧
      st1.in_progress = dictSet [(("wifi", ""), ("+old", (1 : ℚ), "+1s000ms"))]
        (get_event_category "+wifi", get_event_subcat (get_event_category "+wifi") "+wifi")
        ("+wifi", 5, "+5s000ms") ∧
      dictGet st1.in_progress
        (get_event_category "+wifi", get_event_subcat (get_event_category "+wifi") "+wifi") =
        some ("+wifi", 5, "+5s000ms") ∧
      st1.emit_dict = initState.emit_dict ∧ st1.cat_list = initState.cat_list ∧
      st1.highlight_dict = initState.highlight_dict ∧
      (∀ b, st1.time_dict b = initState.time_dict b) :=
  claim_C10 0 false "" 5 "+5s000ms" "+wifi"
    { initState with in_progress := [(("wifi", ""), ("+old", 1, "+1s000ms"))] }
    ("+old", 1, "+1s000ms") (by decide) (by decide) (by decide) (by decide)

/-- C9: for a blame-category (`wake_lock_in`) interval, the `BlameRecord`
appended to `cat_list` keeps the true observed end time `e0`, the occupancy
map is folded over `[s, e0 + grace)` only, and the sub-second `end += 1` bump
is applied afterwards, altering only the interval stored into `emit_dict`. -/
theorem claim_C9 (extra : ℚ) (saw : Bool) (st : HState)
    (event_name0 end_name0 : String) (s e0 : ℚ) (sts ets : String)
    (pr pr2 : String × String) (en sen : String)
    (hpp : get_proc_pair event_name0 = some pr)
    (hpe : get_proc_pair end_name0 = some pr2)
    (hname : pr.2 = pr2.2)
    (hsid : st.search_proc_id = none)
    (hpro1 : process_event_name st.proc_dict saw event_name0 sts ets = some (en, sen))
    (hpro2 : (process_event_name st.proc_dict saw end_name0 sts ets).isSome = true) :
    ∃ st1, emit_event extra saw "wake_lock_in" event_name0 s sts end_name0 e0 ets st =
        some st1 ∧
      st1.cat_list = st.cat_list ++ [(sen, s, e0)] ∧
      (∀ b, st1.time_dict b = track_event_parallelism s (e0 + extra) st.time_dict b) ∧
      st1.emit_dict = add_emit_event st.emit_dict "wake_lock_in" en s
        (if (e0 + extra) - s < 1 then (e0 + extra) + 1 else (e0 + extra)) ∧
      st1.highlight_dict = st.highlight_dict ∧
      st1.in_progress = st.in_progress := by
  obtain ⟨spid, spn⟩ := pr
  obtain ⟨epid, epn⟩ := pr2
  obtain ⟨en2, hpro2e⟩ := Option.isSome_iff_exists.mp hpro2
  obtain ⟨en2n, en2s⟩ := en2
  have hwl : strContains "wake_lock_in" "wake_lock" = true := by decide
  have hname2 : spn = epn := hname
  unfold emit_event
  rw [hpp, hpe, hpro1]
  simp only [hwl, if_true, hpro2e]
  simp only [sid_match, hsid, Bool.false_eq_true, and_false, if_false, ite_false]
  rw [if_neg (by simp [hname2])]
  refine ⟨_, rfl, ?_, ?_, ?_, ?_, ?_⟩ <;>
    simp [emit_tail, BLAME_CATEGORY]

unseal Rat.add Rat.sub Rat.mul Rat.inv in
/-- Witness for C9: a sub-second `wake_lock_in` interval `[1, 3/2)`, grace 0. -/
theorem claim_C9_witness :
    ∃ st1, emit_event 0 false "wake_lock_in" "+wake_lock_in=w" 1 "+1s000ms"
        "-wake_lock_in=w" (mkRat 3 2) "+1s500ms" initState = some st1 ∧
      st1.cat_list = initState.cat_list ++ [("+wake_lock_in=w", 1, mkRat 3 2)] ∧
      (∀ b, st1.time_dict b =
        track_event_parallelism 1 (mkRat 3 2 + 0) initState.time_dict b) ∧
      st1.emit_dict = add_emit_event initState.emit_dict "wake_lock_in"
        "+wake_lock_in=w(+1s-+1s)" 1
        (if (mkRat 3 2 + 0) - 1 < 1 then (mkRat 3 2 + 0) + 1 else (mkRat 3 2 + 0)) ∧
      st1.highlight_dict = initState.highlight_dict ∧
      st1.in_progress = initState.in_progress :=
  claim_C9 0 false initState "+wake_lock_in=w" "-wake_lock_in=w" 1 (mkRat 3 2)
    "+1s000ms" "+1s500ms" ("", "") ("", "") "+wake_lock_in=w(+1s-+1s)" "+wake_lock_in=w"
    (by decide) (by decide) rfl rfl (by decide) (by decide)

theorem track_event_parallelism_self (a : ℚ) (td : Int → Option ℚ) :
    track_event_parallelism a a td = td := by
  unfold track_event_parallelism rangeCalls apply_fn_over_range
  rw [applyAux_stop _ _ _ _ (lt_irrefl a)]
  rfl

theorem emit_tail_fields (extra : ℚ) (cat en sen : String) (s e0 : ℚ) (st : HState) :
    (emit_tail extra cat en sen s e0 st).in_progress = st.in_progress ∧
    (emit_tail extra cat en sen s e0 st).proc_dict = st.proc_dict ∧
    (emit_tail extra cat en sen s e0 st).search_proc_id = st.search_proc_id ∧
    (emit_tail extra cat en sen s e0 st).highlight_dict = st.highlight_dict := by
  unfold emit_tail
  by_cases hb : cat = BLAME_CATEGORY <;> simp [hb]

theorem emit_tail_emit_dict (extra : ℚ) (cat en sen : String) (s e0 : ℚ) (st : HState) :
    (emit_tail extra cat en sen s e0 st).emit_dict =
      add_emit_event st.emit_dict cat en s
        (if (if cat = BLAME_CATEGORY then e0 + extra else e0) - s < 1 then
          (if cat = BLAME_CATEGORY then e0 + extra else e0) + 1
         else (if cat = BLAME_CATEGORY then e0 + extra else e0)) := by
  unfold emit_tail
  by_cases hb : cat = BLAME_CATEGORY <;> simp [hb]

theorem emit_tail_cat_list (extra : ℚ) (cat en sen : String) (s e0 : ℚ) (st : HState) :
    (emit_tail extra cat en sen s e0 st).cat_list =
      (if cat = BLAME_CATEGORY then st.cat_list ++ [(sen, s, e0)] else st.cat_list) := by
  unfold emit_tail
  by_cases hb : cat = BLAME_CATEGORY <;> simp [hb]

theorem emit_tail_time_dict (extra : ℚ) (cat en sen : String) (s e0 : ℚ) (st : HState) :
    (emit_tail extra cat en sen s e0 st).time_dict =
      (if cat = BLAME_CATEGORY then track_event_parallelism s (e0 + extra) st.time_dict
       else st.time_dict) := by
  unfold emit_tail
  by_cases hb : cat = BLAME_CATEGORY <;> simp [hb]

/-- Effect of `emit_event` when the begin and end names resolve to the same
process name and no `-n` search is active: the `wake_lock` special cases do
nothing and the call reduces to the common tail. -/
theorem emit_event_eqpn (extra : ℚ) (saw : Bool) (cat nm1 : String) (s : ℚ)
    (sts : String) (nm2 : String) (e0 : ℚ) (ets : String) (st : HState)
    (prB prE : String × String) (en sen : String)
    (hpr1 : get_proc_pair nm1 = some prB)
    (hpr2 : get_proc_pair nm2 = some prE)
    (hpn : prB.2 = prE.2)
    (hpro1 : process_event_name st.proc_dict saw nm1 sts ets = some (en, sen))
    (hpro2 : (process_event_name st.proc_dict saw nm2 sts ets).isSome = true)
    (hsid : st.search_proc_id = none) :
    emit_event extra saw cat nm1 s sts nm2 e0 ets st =
      some (emit_tail extra cat en sen s e0 st) := by
  obtain ⟨spid, spn⟩ := prB
  obtain ⟨epid, epn⟩ := prE
  obtain ⟨en2, hpro2e⟩ := Option.isSome_iff_exists.mp hpro2
  obtain ⟨en2n, en2s⟩ := en2
  have hpn2 : spn = epn := hpn
  unfold emit_event
  rw [hpr1, hpr2, hpro1]
  have hsm : ∀ pid, sid_match st.search_proc_id pid = false := by
    intro pid
    rw [hsid]
    rfl
  by_cases hwl : strContains cat "wake_lock" = true
  · simp only [hwl, if_true, hpro2e]
    simp only [hsm, Bool.false_eq_true, and_false, if_false, ite_false]
    rw [if_neg (by simp [hpn2])]
  · simp [hwl]

/-- C7 (amended): an end or instantaneous token whose category is not
omitted, which the zero-time rule does not convert into a begin, whose
name-processing succeeds, and whose `(category, sub_category)` key has no
open interval, makes `handle_event` emit an interval whose start and end
times both equal the token's own time (before the sub-second bump adds 1 to
the emitted end), with the token itself as the event name; no error occurs
and the open-interval table is unchanged. -/
theorem claim_C7 (saw : Bool) (pn : String) (t : ℚ) (ts tok : String) (st : HState)
    (pr : String × String) (en sen : String)
    (hemit : is_emit_event tok = true)
    (hflip : ¬ (ts = "0" ∧ is_standalone_event tok = true ∧
      get_event_category tok ∈ transitional_cats))
    (homit : get_event_category tok ∉ omit_cats)
    (hnone : dictGet st.in_progress
      (get_event_category tok, get_event_subcat (get_event_category tok) tok) = none)
    (hpr : get_proc_pair tok = some pr)
    (hpro : process_event_name st.proc_dict saw tok ts ts = some (en, sen))
    (hsid : st.search_proc_id = none) :
    ∃ st1, handle_event 0 saw pn t ts tok st = some st1 ∧
      st1.emit_dict = add_emit_event st.emit_dict (get_event_category tok) en t (t + 1) ∧
      st1.in_progress = st.in_progress ∧
      st1.highlight_dict = st.highlight_dict ∧
      (∀ b, st1.time_dict b = st.time_dict b) ∧
      (get_event_category tok = BLAME_CATEGORY →
        st1.cat_list = st.cat_list ++ [(sen, t, t)]) ∧
      (get_event_category tok ≠ BLAME_CATEGORY → st1.cat_list = st.cat_list) := by
  have hnp : is_proc_event tok = false := by
    unfold is_proc_event
    unfold is_emit_event at hemit
    cases hd : tok.data with
    | nil => rfl
    | cons c cs =>
      rw [hd] at hemit
      simp only [listLeads, Bool.and_true, Bool.not_eq_true'] at hemit
      simp [listLeads, hemit]
  have hemit_run : handle_event 0 saw pn t ts tok st =
      emit_event 0 saw (get_event_category tok) tok t ts tok t ts st := by
    unfold handle_event
    simp only [hflip, if_false, ite_false, hnp, Bool.false_eq_true, hemit, if_true,
      ite_true]
    unfold retrieve_event
    rw [hnone]
    simp [hemit, homit]
  rw [hemit_run, emit_event_eqpn 0 saw (get_event_category tok) tok t ts tok t ts st
    pr pr en sen hpr hpr rfl hpro (by rw [hpro]; rfl) hsid]
  have hlt : ∀ x : ℚ, x - x < 1 := fun x => by norm_num
  refine ⟨_, rfl, ?_, (emit_tail_fields _ _ _ _ _ _ _).1,
    (emit_tail_fields _ _ _ _ _ _ _).2.2.2, ?_, ?_, ?_⟩
  · rw [emit_tail_emit_dict]
    by_cases hb : get_event_category tok = BLAME_CATEGORY
    · simp only [hb, eq_self_iff_true, if_true, ite_true, add_zero]
      rw [if_pos (hlt t)]
    · simp only [if_neg hb]
      rw [if_pos (hlt t)]
  · intro b
    rw [emit_tail_time_dict]
    by_cases hb : get_event_category tok = BLAME_CATEGORY
    · rw [if_pos hb, add_zero, track_event_parallelism_self]
    · rw [if_neg hb]
  · intro hb
    rw [emit_tail_cat_list, if_pos hb]
  · intro hb
    rw [emit_tail_cat_list, if_neg hb]

/-- C7, counterexample to the claim as stated.  (a) An unmatched `-sensor=2`
end token is in an omitted category: `handle_event` succeeds but emits no
interval at all.  (b) An unmatched end token containing `:` but no `=`
(`-foo:bar`) makes `get_proc_pair` raise an uncaught `IndexError` inside
`emit_event`, aborting the run — it *is* treated as an error. -/
theorem claim_C7_cex :
    (handle_event 0 false "" 5 "+5s000ms" "-sensor=2" initState).map
      (fun st => st.emit_dict) = some [] ∧
    (handle_event 0 false "" 5 "+5s000ms" "-foo:bar" initState).isSome = false := by
  constructor
  · decide
  · decide

unseal Rat.add Rat.sub Rat.mul Rat.inv in
/-- Witness for C7 (amended) at the unmatched end token `-wifi`, time 5. -/
theorem claim_C7_witness :
    ∃ st1, handle_event 0 false "" 5 "+5s000ms" "-wifi" initState = some st1 ∧
      st1.emit_dict = add_emit_event initState.emit_dict (get_event_category "-wifi")
        "-wifi(+5s-+5s)" 5 (5 + 1) ∧
      st1.in_progress = initState.in_progress ∧
      st1.highlight_dict = initState.highlight_dict ∧
      (∀ b, st1.time_dict b = initState.time_dict b) ∧
      (get_event_category "-wifi" = BLAME_CATEGORY →
        st1.cat_list = initState.cat_list ++ [("-wifi", 5, 5)]) ∧
      (get_event_category "-wifi" ≠ BLAME_CATEGORY → st1.cat_list = initState.cat_list) :=
  claim_C7 false "" 5 "+5s000ms" "-wifi" initState ("", "") "-wifi(+5s-+5s)" "-wifi"
    (by decide) (by decide) (by decide) (by decide) (by decide) (by decide) rfl

theorem is_proc_of_emit {tok : String} (hemit : is_emit_event tok = true) :
    is_proc_event tok = false := by
  unfold is_proc_event
  unfold is_emit_event at hemit
  cases hd : tok.data with
  | nil => rfl
  | cons c cs =>
    rw [hd] at hemit
    simp only [listLeads, Bool.and_true, Bool.not_eq_true'] at hemit
    simp [listLeads, hemit]

/-- Effect of `handle_event` on an end token whose key has an open entry:
pop the entry and run `emit_event` with the stored begin name and start. -/
theorem handle_event_end_found (extra : ℚ) (saw : Bool) (pn : String) (t2 : ℚ)
    (ts2 etok : String) (st : HState) (bnm : String) (t1 : ℚ) (ts1 : String)
    (prB prE : String × String) (en sen : String)
    (hemit : is_emit_event etok = true)
    (hflip : ¬ (ts2 = "0" ∧ is_standalone_event etok = true ∧
      get_event_category etok ∈ transitional_cats))
    (homit : get_event_category etok ∉ omit_cats)
    (hfound : dictGet st.in_progress
      (get_event_category etok, get_event_subcat (get_event_category etok) etok) =
      some (bnm, t1, ts1))
    (hpr1 : get_proc_pair bnm = some prB)
    (hpr2 : get_proc_pair etok = some prE)
    (hpn : prB.2 = prE.2)
    (hpro1 : process_event_name st.proc_dict saw bnm ts1 ts2 = some (en, sen))
    (hpro2 : (process_event_name st.proc_dict saw etok ts1 ts2).isSome = true)
    (hsid : st.search_proc_id = none) :
    handle_event extra saw pn t2 ts2 etok st =
      some (emit_tail extra (get_event_category etok) en sen t1 t2
        { st with in_progress := (dictRemove st.in_progress
            (get_event_category etok, get_event_subcat (get_event_category etok) etok)) }) := by
  have hnp := is_proc_of_emit hemit
  have hrun : handle_event extra saw pn t2 ts2 etok st =
      emit_event extra saw (get_event_category etok) bnm t1 ts1 etok t2 ts2
        { st with in_progress := (dictRemove st.in_progress
            (get_event_category etok, get_event_subcat (get_event_category etok) etok)) } := by
    unfold handle_event
    simp only [hflip, if_false, ite_false, hnp, Bool.false_eq_true, hemit, if_true,
      ite_true]
    unfold retrieve_event
    rw [hfound]
    simp [hemit, homit]
  rw [hrun]
  exact emit_event_eqpn extra saw (get_event_category etok) bnm t1 ts1 etok t2 ts2
    _ prB prE en sen hpr1 hpr2 hpn hpro1 hpro2 hsid

/-- C4 (amended): for a matched begin/end token pair (begin at `t1`, end at
`t2`, `0 ≤ t1 ≤ t2`, grace 0), the interval stored into `emit_dict` is
`(name, int(t1), int(end))` where `end = t2` if `t2 - t1 ≥ 1`, and
`end = t2 + 1` (the sub-second bump) otherwise.  `add_emit_event` truncates
both endpoints with `int()`, so in the sub-second case the stored end is
`⌊t2⌋ + 1`, which equals the stored `start_time + 1` exactly when
`⌊t1⌋ = ⌊t2⌋`, i.e. when the sub-second interval does not cross an
integer-second boundary. -/
theorem claim_C4 (saw : Bool) (pn : String) (t1 t2 : ℚ) (ts1 ts2 btok etok : String)
    (st : HState) (prB prE : String × String) (en sen : String)
    (h0 : 0 ≤ t1) (h12 : t1 ≤ t2)
    (hbplus : listLeads ['+'] btok.data = true)
    (hbnp : is_proc_event btok = false)
    (homit : get_event_category btok ∉ omit_cats)
    (hcat : get_event_category etok = get_event_category btok)
    (hsub : get_event_subcat (get_event_category btok) etok =
      get_event_subcat (get_event_category btok) btok)
    (hemit : is_emit_event etok = true)
    (hflip : ¬ (ts2 = "0" ∧ is_standalone_event etok = true ∧
      get_event_category etok ∈ transitional_cats))
    (hpr1 : get_proc_pair btok = some prB)
    (hpr2 : get_proc_pair etok = some prE)
    (hpn : prB.2 = prE.2)
    (hpro1 : process_event_name st.proc_dict saw btok ts1 ts2 = some (en, sen))
    (hpro2 : (process_event_name st.proc_dict saw etok ts1 ts2).isSome = true)
    (hsid : st.search_proc_id = none) :
    ∃ st1 st2 e2,
      handle_event 0 saw pn t1 ts1 btok st = some st1 ∧
      handle_event 0 saw pn t2 ts2 etok st1 = some st2 ∧
      st2.emit_dict = add_emit_event st1.emit_dict (get_event_category btok) en t1 e2 ∧
      (1 ≤ t2 - t1 → e2 = t2 ∧ pyInt e2 = ⌊t2⌋) ∧
      (t2 - t1 < 1 → e2 = t2 + 1 ∧ pyInt e2 = ⌊t2⌋ + 1 ∧
        (pyInt e2 = pyInt t1 + 1 ↔ ⌊t2⌋ = ⌊t1⌋)) := by
  have hstep1 := handle_event_begin 0 saw pn t1 ts1 btok st hbplus hbnp homit
  set st1 := store_event st (get_event_category btok)
    (get_event_subcat (get_event_category btok) btok) btok t1 ts1 with hst1
  have hfound : dictGet st1.in_progress
      (get_event_category etok, get_event_subcat (get_event_category etok) etok) =
      some (btok, t1, ts1) := by
    rw [hcat, hsub]
    exact dictGet_dictSet_self _ _ _
  have hstep2 := handle_event_end_found 0 saw pn t2 ts2 etok st1 btok t1 ts1
    prB prE en sen hemit hflip (hcat ▸ homit) hfound hpr1 hpr2 hpn hpro1 hpro2 hsid
  refine ⟨st1, _, if t2 - t1 < 1 then t2 + 1 else t2, hstep1, hstep2, ?_, ?_, ?_⟩
  · rw [emit_tail_emit_dict, hcat]
    congr 1
    by_cases hb : get_event_category btok = BLAME_CATEGORY <;> simp [hb]
  · intro hge
    have hne : ¬ (t2 - t1 < 1) := not_lt.mpr hge
    rw [if_neg hne]
    exact ⟨rfl, pyInt_of_nonneg (le_trans h0 h12)⟩
  · intro hlt
    rw [if_pos hlt]
    have h20 : (0 : ℚ) ≤ t2 + 1 := by linarith
    have hfl : pyInt (t2 + 1) = ⌊t2⌋ + 1 := by
      rw [pyInt_of_nonneg h20]
      exact_mod_cast Int.floor_add_one t2
    refine ⟨rfl, hfl, ?_⟩
    rw [hfl, pyInt_of_nonneg h0]
    omega

unseal Rat.add Rat.sub Rat.mul Rat.inv in
/-- C4, counterexample to the claim as stated: for the matched pair
`+wifi` at `t1 = 1.7`, `-wifi` at `t2 = 2.3` (a sub-second interval crossing
the integer-second boundary at 2), the bump produces `end = 3.3` and
`add_emit_event` stores `(int(1.7), int(3.3)) = (1, 3)`: the stored end time
is `start_time + 2`, not `start_time + 1`. -/
theorem claim_C4_cex :
    ((handle_event 0 false "" (mkRat 17 10) "+1s700ms" "+wifi" initState).bind
      (fun st1 => handle_event 0 false "" (mkRat 23 10) "+2s300ms" "-wifi" st1)).map
        (fun st => st.emit_dict) =
      some [("wifi", [("+wifi(+1s-+2s)", 1, 3)])] ∧
    (3 : Int) ≠ 1 + 1 := by
  constructor
  · decide
  · decide

unseal Rat.add Rat.sub Rat.mul Rat.inv in
/-- Witness for C4 (amended): the sub-second pair `+wifi` at `1.1`,
`-wifi` at `1.8`, which stays inside second 1. -/
theorem claim_C4_witness :
    ∃ st1 st2 e2,
      handle_event 0 false "" (mkRat 11 10) "+1s100ms" "+wifi" initState = some st1 ∧
      handle_event 0 false "" (mkRat 18 10) "+1s800ms" "-wifi" st1 = some st2 ∧
      st2.emit_dict = add_emit_event st1.emit_dict (get_event_category "+wifi")
        "+wifi(+1s-+1s)" (mkRat 11 10) e2 ∧
      (1 ≤ mkRat 18 10 - mkRat 11 10 → e2 = mkRat 18 10 ∧ pyInt e2 = ⌊mkRat 18 10⌋) ∧
      (mkRat 18 10 - mkRat 11 10 < 1 → e2 = mkRat 18 10 + 1 ∧
        pyInt e2 = ⌊mkRat 18 10⌋ + 1 ∧
        (pyInt e2 = pyInt (mkRat 11 10) + 1 ↔ ⌊mkRat 18 10⌋ = ⌊mkRat 11 10⌋)) :=
  claim_C4 false "" (mkRat 11 10) (mkRat 18 10) "+1s100ms" "+1s800ms" "+wifi" "-wifi"
    initState ("", "") ("", "") "+wifi(+1s-+1s)" "+wifi"
    (by decide) (by decide) (by decide) (by decide) (by decide) (by decide) (by decide)
    (by decide) (by decide) (by decide) (by decide) rfl (by decide) (by decide) rfl

/-- Total number of events stored in an `emit_dict`. -/
def totalEvents (d : List (String × List (String × Int × Int))) : Nat :=
  (d.map (fun kv => kv.2.length)).sum

/-- All events stored in an `emit_dict`, across categories. -/
def allEvents (d : List (String × List (String × Int × Int))) :
    List (String × Int × Int) :=
  (d.map (fun kv => kv.2)).flatten

theorem totalEvents_dictSet_found :
    ∀ (d : List (String × List (String × Int × Int))) (cat : String)
      (l : List (String × Int × Int)) (ev : String × Int × Int),
      dictGet d cat = some l →
      totalEvents (dictSet d cat (l ++ [ev])) = totalEvents d + 1 := by
  intro d
  induction d with
  | nil => intro cat l ev h; exact absurd h (by simp [dictGet])
  | cons hd rest ih =>
    intro cat l ev h
    obtain ⟨k, v⟩ := hd
    by_cases hk : cat = k
    · subst hk
      simp only [dictGet, eq_self_iff_true, if_true, Option.some_inj] at h
      subst h
      simp only [dictSet, eq_self_iff_true, if_true, totalEvents, List.map_cons,
        List.sum_cons, List.length_append, List.length_singleton]
      omega
    · simp only [dictGet, if_neg hk] at h
      simp only [dictSet, if_neg hk]
      have := ih cat l ev h
      simp only [totalEvents, List.map_cons, List.sum_cons] at this ⊢
      omega

theorem totalEvents_add (d : List (String × List (String × Int × Int)))
    (cat name : String) (s e : ℚ) :
    totalEvents (add_emit_event d cat name s e) = totalEvents d + 1 := by
  unfold add_emit_event
  cases hget : dictGet d cat with
  | none => simp [totalEvents]
  | some l => exact totalEvents_dictSet_found d cat l _ hget

theorem mem_allEvents_dictSet_found :
    ∀ (d : List (String × List (String × Int × Int))) (cat : String)
      (l : List (String × Int × Int)) (ev x : String × Int × Int),
      dictGet d cat = some l →
      x ∈ allEvents (dictSet d cat (l ++ [ev])) → x ∈ allEvents d ∨ x = ev := by
  intro d
  induction d with
  | nil => intro cat l ev x h; exact absurd h (by simp [dictGet])
  | cons hd rest ih =>
    intro cat l ev x h hx
    obtain ⟨k, v⟩ := hd
    by_cases hk : cat = k
    · subst hk
      simp only [dictGet, eq_self_iff_true, if_true, Option.some_inj] at h
      subst h
      simp only [dictSet, eq_self_iff_true, if_true, allEvents, List.map_cons,
        List.flatten_cons, List.mem_append, List.mem_singleton] at hx ⊢
      rcases hx with (hx | hx) | hx
      · exact Or.inl (Or.inl hx)
      · exact Or.inr hx
      · exact Or.inl (Or.inr hx)
    · simp only [dictGet, if_neg hk] at h
      simp only [dictSet, if_neg hk, allEvents, List.map_cons, List.flatten_cons,
        List.mem_append] at hx ⊢
      rcases hx with hx | hx
      · exact Or.inl (Or.inl hx)
      · rcases ih cat l ev x h hx with h2 | h2
        · exact Or.inl (Or.inr h2)
        · exact Or.inr h2

theorem mem_allEvents_add (d : List (String × List (String × Int × Int)))
    (cat name : String) (s e : ℚ) (x : String × Int × Int)
    (hx : x ∈ allEvents (add_emit_event d cat name s e)) :
    x ∈ allEvents d ∨ x = (name, pyInt s, pyInt e) := by
  unfold add_emit_event at hx
  cases hget : dictGet d cat with
  | none =>
    rw [hget] at hx
    simp only [allEvents, List.map_append, List.flatten_append, List.mem_append,
      List.map_cons, List.map_nil, List.flatten_cons, List.flatten_nil,
      List.append_nil, List.mem_singleton] at hx
    rcases hx with hx | hx
    · exact Or.inl hx
    · exact Or.inr hx
  | some l =>
    rw [hget] at hx
    exact mem_allEvents_dictSet_found d cat l _ x hget hx

/-- Effect of the forced-closure loop: one interval per open entry, each with
end `int(T)` (hypotheses: grace 0, names resolvable, every open interval at
least one second old so the sub-second bump does not fire). -/
theorem emitRemainingGo_effect (saw : Bool) (T : ℚ) (Tstr : String) :
    ∀ (table : List ((String × String) × (String × ℚ × String))) (st : HState),
      st.search_proc_id = none →
      (∀ ent ∈ table, (get_proc_pair ent.2.1).isSome = true ∧
        (process_event_name st.proc_dict saw ent.2.1 ent.2.2.2 Tstr).isSome = true ∧
        ent.2.2.1 + 1 ≤ T) →
      ∃ st1, emitRemainingGo 0 saw T Tstr table st = some st1 ∧
        totalEvents st1.emit_dict = totalEvents st.emit_dict + table.length ∧
        (∀ ev ∈ allEvents st1.emit_dict, ev ∈ allEvents st.emit_dict ∨ ev.2.2 = pyInt T) ∧
        st1.proc_dict = st.proc_dict ∧ st1.search_proc_id = st.search_proc_id := by
  intro table
  induction table with
  | nil =>
    intro st hsid _
    exact ⟨st, rfl, by simp, fun ev h => Or.inl h, rfl, rfl⟩
  | cons ent rest ih =>
    intro st hsid hok
    obtain ⟨⟨cat, subcat⟩, nm, s, sts⟩ := ent
    obtain ⟨hpr0, hpro0, hdur⟩ := hok _ (List.mem_cons_self _ _)
    obtain ⟨pr, hpr⟩ := Option.isSome_iff_exists.mp hpr0
    obtain ⟨en2, hpro⟩ := Option.isSome_iff_exists.mp hpro0
    obtain ⟨en, sen⟩ := en2
    have hstep := emit_event_eqpn 0 saw cat nm s sts nm T Tstr st pr pr en sen
      hpr hpr rfl hpro (by rw [hpro]; rfl) hsid
    have hfields := emit_tail_fields 0 cat en sen s T st
    have hemit_dict : (emit_tail 0 cat en sen s T st).emit_dict =
        add_emit_event st.emit_dict cat en s T := by
      rw [emit_tail_emit_dict]
      have hnb : ¬ (T - s < 1) := by
        rw [not_lt]
        linarith
      by_cases hb : cat = BLAME_CATEGORY
      · simp only [hb, eq_self_iff_true, if_true, ite_true, add_zero]
        rw [if_neg hnb]
      · simp only [if_neg hb]
        rw [if_neg hnb]
    obtain ⟨st2, hrun, hcount, hmem, hpd, hsid2⟩ :=
      ih (emit_tail 0 cat en sen s T st)
        (by rw [hfields.2.2.1, hsid])
        (by
          intro e2 he2
          have := hok e2 (List.mem_cons_of_mem _ he2)
          rwa [hfields.2.1])
    refine ⟨st2, ?_, ?_, ?_, ?_, ?_⟩
    · simp only [emitRemainingGo, hstep]
      exact hrun
    · rw [hcount, hemit_dict, totalEvents_add]
      simp [List.length_cons]
      omega
    · intro ev hev
      rcases hmem ev hev with h2 | h2
      · rw [hemit_dict] at h2
        rcases mem_allEvents_add _ _ _ _ _ _ h2 with h3 | h3
        · exact Or.inl h3
        · subst h3
          exact Or.inr rfl
      · exact Or.inr h2
    · rw [hpd, hfields.2.1]
    · rw [hsid2, hfields.2.2.1]

/-- C6: at end of stream, with grace 0, name processing succeeding for every
open entry and every open interval at least one second old, the forced
closure emits exactly one interval per still-open `(category, sub_category)`
key, and every newly stored interval's end time is `int(T)`, the last
observed event time — exactly what an end token arriving at `T` would store. -/
theorem claim_C6 (saw : Bool) (T : ℚ) (Tstr : String) (st : HState)
    (hsid : st.search_proc_id = none)
    (hok : ∀ ent ∈ st.in_progress, (get_proc_pair ent.2.1).isSome = true ∧
      (process_event_name st.proc_dict saw ent.2.1 ent.2.2.2 Tstr).isSome = true ∧
      ent.2.2.1 + 1 ≤ T) :
    ∃ st1, emit_remaining_events 0 saw T Tstr st = some st1 ∧
      totalEvents st1.emit_dict = totalEvents st.emit_dict + st.in_progress.length ∧
      (∀ ev ∈ allEvents st1.emit_dict,
        ev ∈ allEvents st.emit_dict ∨ ev.2.2 = pyInt T) := by
  obtain ⟨st1, hrun, hcount, hmem, _, _⟩ :=
    emitRemainingGo_effect saw T Tstr st.in_progress st hsid hok
  exact ⟨st1, hrun, hcount, hmem⟩

unseal Rat.add Rat.sub Rat.mul Rat.inv in
/-- Witness for C6: one open `wifi` interval since time 1, closed at `T = 5`. -/
theorem claim_C6_witness :
    ∃ st1, emit_remaining_events 0 false 5 "+5s000ms"
        { initState with in_progress := [(("wifi", ""), ("+wifi", 1, "+1s000ms"))] } =
        some st1 ∧
      totalEvents st1.emit_dict =
        totalEvents ({ initState with
          in_progress := [(("wifi", ""), ("+wifi", 1, "+1s000ms"))] } : HState).emit_dict +
          [(("wifi", ""), (("+wifi" : String), (1 : ℚ), ("+1s000ms" : String)))].length ∧
      (∀ ev ∈ allEvents st1.emit_dict,
        ev ∈ allEvents ({ initState with
          in_progress := [(("wifi", ""), ("+wifi", 1, "+1s000ms"))] } : HState).emit_dict ∨
          ev.2.2 = pyInt 5) :=
  claim_C6 false 5 "+5s000ms"
    { initState with in_progress := [(("wifi", ""), ("+wifi", 1, "+1s000ms"))] }
    rfl (by decide)

/-! ## `parse_time` and the malformed-line handling of `main` -/

/-- Uncaught Python exception kinds relevant to `parse_time`. -/
inductive PyError where
  | attributeError
  | indexError
deriving DecidableEq

/-- Leading digit run of a char list: `(digits, rest)`. -/
def digitsTake : List Char → List Char × List Char
  | [] => ([], [])
  | c :: cs =>
    if c.isDigit then
      let p := digitsTake cs
      (c :: p.1, p.2)
    else ([], c :: cs)

/-- Match one `(\d+)unit` regex group greedily (the digit run is maximal; a
shorter run would leave a digit where the unit letter must be). -/
def tryGroup (unit : List Char) (cs : List Char) : Option (String × List Char) :=
  match digitsTake cs with
  | ([], _) => none
  | (d, r) => if listLeads unit r then some (String.mk d, r.drop unit.length) else none

/-- Match the anchored tail `((\d+)d)?((\d+)h)?((\d+)m)?((\d+)s)?((\d+)ms)?$`
of `main`'s time format, with regex backtracking: each optional group is
tried present first, falling back to absent if the rest cannot match. -/
def matchGroups : List (List Char) → List Char → Option (List (Option String))
  | [], cs => if cs.isEmpty then some [] else none
  | u :: us, cs =>
    (match tryGroup u cs with
     | some (d, r) => (matchGroups us r).map (fun tail => some d :: tail)
     | none => none) <|>
    (matchGroups us cs).map (fun tail => none :: tail)

/-- The five unit suffixes of the time format, in group order. -/
def timeUnits : List (List Char) := [['d'], ['h'], ['m'], ['s'], ['m', 's']]

/-- `re.search` with `main`'s pattern
`\+((?P<day>\d+)d)?((?P<hrs>\d+)h)?((?P<min>\d+)m)?((?P<sec>\d+)s)?((?P<ms>\d+)ms)?$`:
the leftmost position holding a literal `+` whose remainder matches the
anchored optional groups; `none` when no position matches. -/
def searchTimeFmt : List Char → Option (List (Option String))
  | [] => none
  | c :: cs =>
    if c == '+' then
      match matchGroups timeUnits cs with
      | some g => some g
      | none => searchTimeFmt cs
    else searchTimeFmt cs

/-- `float()` of a captured digit run. -/
def digitsToNat (s : String) : ℕ :=
  s.data.foldl (fun n c => n * 10 + (c.toNat - '0'.toNat)) 0

/-- `parse_time(s, fmt)` (historian.py) specialized to `main`'s forward time
format.  The script guards only `match.groupdict()` with
`try/except IndexError`; when the pattern does not match, `re.search` returns
`None`, and `None.groupdict()` raises `AttributeError` — which the
`except IndexError` clause does not catch, so the error propagates.  The
`return -1.0` sentinel (and `main`'s `if time_delta_s < 0: continue` skip) is
therefore unreachable for unparseable time strings. -/
def parse_time (s : String) : Except PyError ℚ :=
  if s = "0" then Except.ok 0
  else
    match searchTimeFmt s.data with
    | none => Except.error PyError.attributeError
    | some groups =>
      let part := fun (i : ℕ) (mult : ℚ) =>
        match (groups.get? i).getD none with
        | some d => (digitsToNat d : ℚ) * mult
        | none => 0
      Except.ok (part 0 (60 * 60 * 24) + part 1 (60 * 60) + part 2 60 + part 3 1 +
        part 4 (1 / 1000))

/-- The per-line time handling of `main` (historian.py lines 1084-1088): a
negative result skips the line; an uncaught exception aborts the run. -/
def process_line_time (line_time : String) : Except PyError (Option ℚ) :=
  match parse_time line_time with
  | Except.error err => Except.error err
  | Except.ok t => if t < 0 then Except.ok none else Except.ok (some t)

unseal Rat.add Rat.sub Rat.mul Rat.inv in
/-- C5 (code bug): a history line whose time field is an unparseable duration
string (here `"1h30m"`, which lacks the mandatory `+`) does not take the
intended `return -1.0` / skip path: `re.search` returns `None`,
`None.groupdict()` raises `AttributeError`, the `except IndexError` clause
does not catch it, and `main` has no handler, so the run aborts instead of
skipping the line.  A well-formed time (`"+1h30m"`) parses normally, showing
the crash is specific to unparseable strings. -/
theorem claim_C5 :
    parse_time "1h30m" = Except.error PyError.attributeError ∧
    process_line_time "1h30m" = Except.error PyError.attributeError ∧
    parse_time "+1h30m" = Except.ok 5400 ∧
    parse_time "0" = Except.ok 0 := by
  refine ⟨rfl, rfl, rfl, rfl⟩
